import Mathlib

/-!
# grpc-test: stream wrapper, producer and consumer tasks, topologies

A shallow embedding of `main.go`, `normal.go`, `sharding.go` and `reversal.go`.

* A `ChatStream` (the Go interface with `Send` and `Recv`) is a deterministic
  state machine over a state type `σ`; `traced` records every call made on it.
* `serialStream` is the mutex wrapper of `main.go`.
* `peerTask` and `chaincodeTask` are the producer and consumer loops.
-/

namespace GrpcTest

/-! ## Data model -/

/-- Go error value. The nil error is `none` at the use sites. -/
structure GoError where
  msg : String
deriving DecidableEq, Repr

/-- Modelled from the spec: the message type `ChatMessage` is declared in generated
code that is not part of the sources; the spec gives it a single text field, and
`peerTask` builds it positionally from one string. -/
structure ChatMessage where
  Text : String
deriving DecidableEq, Repr

/-- The interface `ChatStream` of `main.go`: `Send(*ChatMessage) error` and
`Recv() (*ChatMessage, error)`, as transitions on the state `σ` of the stream. -/
structure ChatStream (σ : Type) where
  Send : σ → ChatMessage → σ × Option GoError
  Recv : σ → σ × Option ChatMessage × Option GoError

/-- One call made on a stream. -/
inductive Call where
  | send (msg : ChatMessage)
  | recv
deriving DecidableEq, Repr

/-- A stream paired with the record of the calls made on it, oldest first. -/
def traced {σ : Type} (S : ChatStream σ) : ChatStream (σ × List Call) where
  Send := fun st msg => (((S.Send st.1 msg).1, st.2 ++ [Call.send msg]), (S.Send st.1 msg).2)
  Recv := fun st => (((S.Recv st.1).1, st.2 ++ [Call.recv]), (S.Recv st.1).2)

/-- Result of a task: it returned, or `log.Fatalf` ended the process. -/
inductive Outcome where
  | returned
  | fatal (err : GoError)
deriving DecidableEq, Repr

/-! ## serialStream (main.go, lines 60-75) -/

/-- The struct `serialStream`: the wrapped stream `cs` and the mutex `lock`
(`true` while held). -/
structure serialStream (σ : Type) where
  cs : σ
  lock : Bool

/-- The method `serialStream.Send`: `lock.Lock()`, `defer lock.Unlock()`,
`return cs.Send(msg)`. `none` when `Lock` finds the mutex held (the caller blocks). -/
def serialStream.Send {σ : Type} (S : ChatStream σ) (stream : serialStream σ)
    (msg : ChatMessage) : Option (serialStream σ × Option GoError) :=
  if stream.lock then none
  else
    let held : serialStream σ := { cs := stream.cs, lock := true }
    let r := S.Send held.cs msg
    some ({ cs := r.1, lock := false }, r.2)

/-- The method `serialStream.Recv`: `lock.Lock()`, `defer lock.Unlock()`,
`return cs.Recv()`. `none` when `Lock` finds the mutex held (the caller blocks). -/
def serialStream.Recv {σ : Type} (S : ChatStream σ) (stream : serialStream σ) :
    Option (serialStream σ × Option ChatMessage × Option GoError) :=
  if stream.lock then none
  else
    let held : serialStream σ := { cs := stream.cs, lock := true }
    let r := S.Recv held.cs
    some ({ cs := r.1, lock := false }, r.2)

/-! ## peerTask and chaincodeTask (main.go, lines 37-58) -/

/-- The message every iteration of `peerTask` sends: `&ChatMessage{"Hello!"}`. -/
def helloMsg : ChatMessage := ⟨"Hello!"⟩

/-- The loop of `peerTask` with `n` iterations left (`n = 10000 - j`): send, and on
a non-nil error `log.Fatalf`. -/
def peerTaskLoop {σ : Type} (S : ChatStream σ) : Nat → σ → Outcome × σ
  | 0, s => (Outcome.returned, s)
  | n + 1, s =>
    match (S.Send s helloMsg).2 with
    | some err => (Outcome.fatal err, (S.Send s helloMsg).1)
    | none => peerTaskLoop S n (S.Send s helloMsg).1

/-- The function `peerTask`: `for j := 0; j < 10000; j++`. -/
def peerTask {σ : Type} (S : ChatStream σ) (s : σ) : Outcome × σ :=
  peerTaskLoop S 10000 s

/-- The function `chaincodeTask`: `for { _, err := stream.Recv(); if err != nil { return } }`.
The loop has no bound of its own; `fuel` bounds the iterations and `none` means the
fuel ran out before a `Recv` failed. -/
def chaincodeTask {σ : Type} (S : ChatStream σ) : Nat → σ → Option (Outcome × σ)
  | 0, _ => none
  | fuel + 1, s =>
    match (S.Recv s).2.2 with
    | some _ => some (Outcome.returned, (S.Recv s).1)
    | none => chaincodeTask S fuel (S.Recv s).1

/-- State of a stream after `i` consecutive `Send`s of `m`. -/
def afterSends {σ : Type} (S : ChatStream σ) (m : ChatMessage) : Nat → σ → σ
  | 0, s => s
  | i + 1, s => afterSends S m i (S.Send s m).1

/-- Error returned by `Send` number `i + 1` of consecutive `Send`s of `m`. -/
def sendErr {σ : Type} (S : ChatStream σ) (m : ChatMessage) (s : σ) (i : Nat) :
    Option GoError :=
  (S.Send (afterSends S m i s) m).2

/-- State of a stream after `i` consecutive `Recv`s. -/
def afterRecvs {σ : Type} (S : ChatStream σ) : Nat → σ → σ
  | 0, s => s
  | i + 1, s => afterRecvs S i (S.Recv s).1

/-- Error returned by `Recv` number `i + 1` of consecutive `Recv`s. -/
def recvErr {σ : Type} (S : ChatStream σ) (s : σ) (i : Nat) : Option GoError :=
  (S.Recv (afterRecvs S i s)).2.2

/-! ## Streams used as concrete inputs -/

/-- A stream that counts its calls; `Send` number `k` (from 1) fails when `bad k`,
`Recv` number `k` fails when `eof k`. -/
def scriptedStream (bad eof : Nat → Bool) : ChatStream Nat where
  Send := fun n _ => (n + 1, if bad (n + 1) then some ⟨"send failed"⟩ else none)
  Recv := fun n =>
    (n + 1, if eof (n + 1) then (none, some ⟨"EOF"⟩) else (some ⟨"Hello!"⟩, none))

/-! ## Concurrent callers of one serialStream -/

/-- The two methods of `serialStream`. -/
inductive Op where
  | send
  | recv
deriving DecidableEq, Repr

/-- Where a goroutine stands with respect to a shared `serialStream`: outside any
call, inside `Send` or `Recv` at `lock.Lock()`, or past `Lock` with its call on the
wrapped stream (`cs.Send` or `cs.Recv`) in flight. -/
inductive Caller where
  | idle
  | waiting (op : Op)
  | inFlight (op : Op)
deriving DecidableEq, Repr

/-- A `serialStream` shared by goroutines: its one mutex and the position of every
goroutine. -/
structure Shared where
  lock : Bool
  callers : Nat → Caller

/-- Scheduler events on a shared `serialStream`. -/
inductive Event where
  | call (g : Nat) (op : Op)
  | acquire (g : Nat)
  | finish (g : Nat)
deriving DecidableEq, Repr

/-- No goroutine has called yet and the mutex is free (the zero value of
`sync.Mutex`). -/
def Shared.start : Shared := { lock := false, callers := fun _ => Caller.idle }

/-- One scheduler event. `call`: an idle goroutine enters `Send` or `Recv` and
reaches `lock.Lock()`. `acquire`: `Lock` returns for a waiting goroutine, which needs
the mutex free, and its call on the wrapped stream starts. `finish`: the call on the
wrapped stream returns and the deferred `Unlock` runs. The same field `lock` serves
`Send` and `Recv`. -/
def Shared.step (st : Shared) : Event → Shared
  | Event.call g op =>
    match st.callers g with
    | Caller.idle => { st with callers := Function.update st.callers g (Caller.waiting op) }
    | _ => st
  | Event.acquire g =>
    match st.callers g with
    | Caller.waiting op =>
      if st.lock then st
      else { lock := true, callers := Function.update st.callers g (Caller.inFlight op) }
    | _ => st
  | Event.finish g =>
    match st.callers g with
    | Caller.inFlight _ =>
      { lock := false, callers := Function.update st.callers g Caller.idle }
    | _ => st

/-- The state after a schedule of events from the start. -/
def Shared.run (evs : List Event) : Shared := evs.foldl Shared.step Shared.start

/-! ## ReversalListener (reversal.go, lines 119-134) -/

/-- Identity of a `net.Conn`. -/
abbrev Conn := Nat

/-- Runtime state of the unbuffered channel `connc chan net.Conn`: whether it is
closed, the values of the senders blocked in `connc <- c`, and the goroutines blocked
in `<-connc`, both oldest first. -/
structure Chan where
  closed : Bool
  sendq : List Conn
  recvq : List Nat
deriving DecidableEq, Repr

/-- The struct `ReversalListener`. -/
structure ReversalListener where
  connc : Chan
deriving DecidableEq, Repr

/-- What `Accept` returns: `(net.Conn, error)`. -/
abbrev AcceptResult := Option Conn × Option GoError

/-- The body of `Accept` after the receive `ret, ok := <-lis.connc`:
`if ok { return ret, nil }; return nil, errors.New("connc closed")`. -/
def ReversalListener.acceptReturn (ret : Option Conn) (ok : Bool) : AcceptResult :=
  if ok then (ret, none) else (none, some ⟨"connc closed"⟩)

/-- A listener in use: the listener, the `Accept` calls that have returned (caller and
result, oldest first), and whether a goroutine has panicked on the channel. -/
structure ListenerRun where
  lis : ReversalListener
  returned : List (Nat × AcceptResult)
  panicked : Bool
deriving DecidableEq, Repr

/-- Events on a listener: goroutine `g` calls `lis.Accept()`; a goroutine executes
`lis.connc <- c`; a goroutine calls `lis.Close()`. -/
inductive LisEvent where
  | accept (g : Nat)
  | deliver (c : Conn)
  | close
deriving DecidableEq, Repr

/-- The listener made by `Reversal.chaincode`: `&ReversalListener{connc: make(chan net.Conn)}`. -/
def ListenerRun.start : ListenerRun :=
  { lis := { connc := { closed := false, sendq := [], recvq := [] } },
    returned := [], panicked := false }

/-- One event, by the semantics of an unbuffered Go channel. `accept`: the receive
takes the value of the oldest blocked sender; with none, it yields the zero value and
`ok = false` on a closed channel and blocks on an open one. `deliver`: the send panics
on a closed channel, hands its value to the oldest blocked receiver, or blocks.
`close`: closing a closed channel panics; otherwise every blocked receiver gets the
zero value with `ok = false` and a blocked sender panics. -/
def ListenerRun.step (r : ListenerRun) : LisEvent → ListenerRun
  | LisEvent.accept g =>
    if r.panicked then r
    else
      match r.lis.connc.sendq with
      | c :: rest =>
        { r with
          lis := { connc := { r.lis.connc with sendq := rest } },
          returned := r.returned ++ [(g, ReversalListener.acceptReturn (some c) true)] }
      | [] =>
        if r.lis.connc.closed then
          { r with returned := r.returned ++ [(g, ReversalListener.acceptReturn none false)] }
        else
          { r with lis := { connc := { r.lis.connc with recvq := r.lis.connc.recvq ++ [g] } } }
  | LisEvent.deliver c =>
    if r.panicked then r
    else if r.lis.connc.closed then { r with panicked := true }
    else
      match r.lis.connc.recvq with
      | g :: rest =>
        { r with
          lis := { connc := { r.lis.connc with recvq := rest } },
          returned := r.returned ++ [(g, ReversalListener.acceptReturn (some c) true)] }
      | [] =>
        { r with lis := { connc := { r.lis.connc with sendq := r.lis.connc.sendq ++ [c] } } }
  | LisEvent.close =>
    if r.panicked then r
    else if r.lis.connc.closed then { r with panicked := true }
    else
      { lis := { connc := { closed := true, sendq := [], recvq := [] } },
        returned := r.returned ++
          r.lis.connc.recvq.map (fun g => (g, ReversalListener.acceptReturn none false)),
        panicked := !r.lis.connc.sendq.isEmpty }

/-- The state after a list of events from the fresh listener. -/
def ListenerRun.run (evs : List LisEvent) : ListenerRun :=
  evs.foldl ListenerRun.step ListenerRun.start

/-- Number of connections `Accept` has returned so far. -/
def ListenerRun.connsReturned (r : ListenerRun) : Nat :=
  (r.returned.filter (fun p => p.2.1.isSome)).length

/-- The events of a run of `Reversal.chaincode` on its listener: the serving
goroutine (`grpcServer.Serve(lis)`) calls `Accept` repeatedly, `chaincode` executes
`lis.connc <- conn` once (line 114) and, after `allDone`, its deferred
`grpcServer.Stop()` closes the listener. `pre`, `mid` and `post` are the `Accept`
calls before the send, between the send and the close, and after the close. -/
def Reversal.chaincodeEvents (conn : Conn) (pre mid post : List Nat) : List LisEvent :=
  pre.map LisEvent.accept ++ LisEvent.deliver conn ::
    (mid.map LisEvent.accept ++ LisEvent.close :: post.map LisEvent.accept)

/-- Whether an event is a send on `connc`. -/
def LisEvent.isDeliver : LisEvent → Bool
  | LisEvent.deliver _ => true
  | _ => false

/-- The result `Accept` returns on a closed channel: no connection and the error
`errors.New("connc closed")`. -/
def ReversalListener.closedResult : AcceptResult := (none, some ⟨"connc closed"⟩)

/-- Every completed `Accept` returned either the connection `conn` or the closed
failure, and every send still blocked offers `conn`. -/
def ListenerRun.OnlyConn (conn : Conn) (r : ListenerRun) : Prop :=
  (∀ p ∈ r.returned, p.2 = (some conn, none) ∨ p.2 = ReversalListener.closedResult) ∧
    ∀ c ∈ r.lis.connc.sendq, c = conn

/-! ## Fan-out of producers over shared wrappers (normal.go, sharding.go) -/

/-- The struct `Sharding`. -/
structure Sharding where
  port : Nat
  poolSize : Nat
deriving DecidableEq, Repr

/-- The pool of `Sharding.peer` while the stream handlers register: the slice `pool`
and the counter of the wait group `poolWG`. -/
structure PoolState (σ : Type) where
  pool : List (serialStream σ)
  poolWG : Int

/-- Lines 23-27 of `Sharding.peer`: `pool := make([]*serialStream, 0)` and
`poolWG.Add(32)`. -/
def Sharding.peerStart (_cfg : Sharding) (σ : Type) : PoolState σ :=
  { pool := [], poolWG := 32 }

/-- The handler of `Sharding.peer` up to its wait on `allDone`: wrap the stream in a
fresh `serialStream`, append it to the pool under `poolLock`, `poolWG.Done()`. -/
def Sharding.handler {σ : Type} (st : PoolState σ) (stream : σ) : PoolState σ :=
  { pool := st.pool ++ [{ cs := stream, lock := false }], poolWG := st.poolWG - 1 }

/-- The pool state once the handlers of the given streams have registered, in the
order of their appends. -/
def Sharding.registered {σ : Type} (cfg : Sharding) (streams : List σ) : PoolState σ :=
  streams.foldl Sharding.handler (Sharding.peerStart cfg σ)

/-- The condition under which `poolWG.Wait()` returns: the counter is zero. -/
def PoolState.waitReturns {σ : Type} (st : PoolState σ) : Bool := decide (st.poolWG = 0)

/-- The loop of `Sharding.chaincode`, `for i := 0; i < 32; i++`: the iterations, each
of which opens one stream with `client.Hello`. -/
def Sharding.chaincodeStreams (_cfg : Sharding) : List Nat := List.range 32

/-- Line 60 of `Sharding.peer`: the index `i % len(pool)` given to producer `i`. -/
def Sharding.slot {σ : Type} (pool : List (serialStream σ)) (i : Nat) : Nat :=
  i % pool.length

/-- Line 60 of `Sharding.peer`: `s := pool[i%len(pool)]`; `none` when the index
expression panics. -/
def Sharding.pick {σ : Type} (pool : List (serialStream σ)) (i : Nat) :
    Option (serialStream σ) :=
  if pool.length = 0 then none else pool[i % pool.length]?

/-- Where goroutine `i` of a fan-out stands: not yet started by the spawning loop; in
`peerTask`, at the test of its loop; back from a `Send` that returned an error, before
the call of `log.Fatalf`; or returned from `peerTask`, with `cfg.wg.Done()` run. -/
inductive Pc where
  | notStarted
  | inLoop
  | sendFailed (err : GoError)
  | returned
deriving DecidableEq, Repr

/-- What a goroutine contributes to the counter of `cfg.wg`: one from its
`cfg.wg.Add(1)` until its `cfg.wg.Done()`. -/
def Pc.pending : Pc → Nat
  | Pc.returned => 0
  | _ => 1

/-- The fan-out of `Normal.peer` (handler, lines 25-32) and of `Sharding.peer`
(lines 58-67): the shared wrappers, each over a traced stream; the variable `i` of the
spawning loop; where every goroutine stands and the counter `j` of its `peerTask`
loop; the counter of the wait group `cfg.wg`; and the error of the `log.Fatalf` that
ended the process, if any. -/
structure FanOut (σ : Type) where
  pool : List (serialStream (σ × List Call))
  spawned : Nat
  pc : Nat → Pc
  j : Nat → Nat
  wg : Int
  fatal : Option GoError

/-- Scheduler events of a fan-out: the spawning loop runs one iteration, or goroutine
`i` runs one step. -/
inductive FanEvent where
  | spawn
  | run (i : Nat)
deriving DecidableEq, Repr

/-- Start of a fan-out: nothing sent on any stream yet, no goroutine started, the
wait group at zero. -/
def FanOut.start {σ : Type} (pool : List (serialStream σ)) : FanOut σ :=
  { pool := pool.map (fun w => { cs := (w.cs, []), lock := w.lock }),
    spawned := 0, pc := fun _ => Pc.notStarted, j := fun _ => 0, wg := 0, fatal := none }

/-- One scheduler event. `spawn`: one iteration of `for i := 0; i < 128; i++`, which
does `cfg.wg.Add(1)` and starts goroutine `i` on the wrapper of index `slot i`.
`run i`: goroutine `i` runs one step of
`peerTask(s); cfg.wg.Done()`: at the loop test with `j < 10000`, one
`stream.Send(&ChatMessage{"Hello!"})` through `serialStream.Send`, after which it is
either back at the loop test with `j++` done or holds the error; at the loop test with
`j < 10000` false, the return from `peerTask` and `cfg.wg.Done()`; holding an error,
`log.Fatalf`. Once the process has ended nothing runs. -/
def FanOut.step {σ : Type} (S : ChatStream σ) (slot : Nat → Nat) (st : FanOut σ) :
    FanEvent → FanOut σ
  | FanEvent.spawn =>
    match st.fatal with
    | some _ => st
    | none =>
      if st.spawned < 128 then
        { st with spawned := st.spawned + 1,
                  pc := Function.update st.pc st.spawned Pc.inLoop,
                  wg := st.wg + 1 }
      else st
  | FanEvent.run i =>
    match st.fatal with
    | some _ => st
    | none =>
      match st.pc i with
      | Pc.notStarted => st
      | Pc.returned => st
      | Pc.sendFailed err => { st with fatal := some err }
      | Pc.inLoop =>
        if st.j i < 10000 then
          match st.pool[slot i]? with
          | none => st
          | some w =>
            match serialStream.Send (traced S) w helloMsg with
            | none => st
            | some (w2, some err) =>
              { st with pool := st.pool.set (slot i) w2,
                        pc := Function.update st.pc i (Pc.sendFailed err) }
            | some (w2, none) =>
              { st with pool := st.pool.set (slot i) w2,
                        j := Function.update st.j i (st.j i + 1) }
        else
          { st with pc := Function.update st.pc i Pc.returned, wg := st.wg - 1 }

/-- The state after a schedule of events. -/
def FanOut.run {σ : Type} (S : ChatStream σ) (slot : Nat → Nat) (sched : List FanEvent)
    (st : FanOut σ) : FanOut σ :=
  sched.foldl (FanOut.step S slot) st

/-- The spawning loop has ended (`i < 128` is false) and `cfg.wg.Wait()` returns (the
counter is zero). -/
def FanOut.waitReturns {σ : Type} (st : FanOut σ) : Bool :=
  !decide (st.spawned < 128) && decide (st.wg = 0)

/-- No goroutine holds the error of a failed `Send`. -/
def FanOut.noFailure {σ : Type} (st : FanOut σ) : Prop :=
  ∀ i e, st.pc i ≠ Pc.sendFailed e

/-- The fan-out of the handler of `Normal.peer`: the handler wraps the accepted stream
in one `serialStream` and every goroutine runs `peerTask` on that wrapper. -/
def Normal.fanOut {σ : Type} (S : ChatStream σ) (stream : σ) (sched : List FanEvent) :
    FanOut σ :=
  FanOut.run S (fun _ => 0) sched (FanOut.start [{ cs := stream, lock := false }])

/-- The fan-out of `Sharding.peer` (lines 58-67) over the registered pool. -/
def Sharding.fanOut {σ : Type} (S : ChatStream σ) (pool : List (serialStream σ))
    (sched : List FanEvent) : FanOut σ :=
  FanOut.run S (Sharding.slot pool) sched (FanOut.start pool)

/-- The goroutines whose wrapper is the one at index `k`. -/
def FanOut.workersOf (slot : Nat → Nat) (k : Nat) : Finset Nat :=
  (Finset.range 128).filter (fun i => slot i = k)

/-- The number of `Send`s that have returned without error on the wrapper at index
`k`, summed over its goroutines. -/
def FanOut.sendsOn (slot : Nat → Nat) (j : Nat → Nat) (k : Nat) : Nat :=
  ∑ i ∈ FanOut.workersOf slot k, j i

/-- The messages of the `Send` calls recorded on a stream, in order. -/
def sentMessages (log : List Call) : List ChatMessage :=
  log.filterMap (fun c => match c with
    | Call.send m => some m
    | Call.recv => none)

/-- Invariant of a fan-out over `L` wrappers. The pool keeps its length and every
mutex is free between steps; the spawning loop has not passed 128 and a goroutine it
has not reached has not started; every counter `j` is at most 10000 and is 10000 in a
goroutine that has returned; the counter of `cfg.wg` is the number of goroutines
started and not returned; the process has ended only through a goroutine that holds an
error; and as long as no `Send` has failed, the calls recorded on the stream at index
`k` are one `Send` of the hello message for every iteration completed by a goroutine of
that index. -/
structure FanOut.Inv {σ : Type} (slot : Nat → Nat) (L : Nat) (st : FanOut σ) : Prop where
  len : st.pool.length = L
  free : ∀ (k : Nat) (w : serialStream (σ × List Call)), st.pool[k]? = some w → w.lock = false
  spawnedLe : st.spawned ≤ 128
  unspawned : ∀ i, st.spawned ≤ i → st.pc i = Pc.notStarted
  bound : ∀ i, st.j i ≤ 10000
  full : ∀ i, st.pc i = Pc.returned → st.j i = 10000
  count : st.wg = ((∑ i ∈ Finset.range st.spawned, (st.pc i).pending : Nat) : Int)
  fatalFrom : ∀ e, st.fatal = some e → ∃ i, st.pc i = Pc.sendFailed e
  logs : st.noFailure → ∀ (k : Nat) (w : serialStream (σ × List Call)),
    st.pool[k]? = some w →
    w.cs.2 = List.replicate (FanOut.sendsOn slot st.j k) (Call.send helloMsg)

/-- The schedule in which the spawning loop runs to its end, then goroutine 0 runs its
10000 iterations and returns, then goroutine 1, and so on up to goroutine `m - 1`. -/
def FanOut.oneByOne (m : Nat) : List FanEvent :=
  (List.range m).flatMap
    (fun i => List.replicate 10000 (FanEvent.run i) ++ [FanEvent.run i])

/-- The whole schedule: 128 iterations of the spawning loop, then the 128 goroutines
one after the other. -/
def FanOut.fullSchedule : List FanEvent :=
  List.replicate 128 FanEvent.spawn ++ FanOut.oneByOne 128

/-! ## The two ends of a stream, and the runs of Normal and Sharding -/

/-- Modelled from the spec: the client end of a stream of the RPC layer, which is not
part of the sources. The spec has messages delivered in the order sent, without loss
or duplication, and the end of a stream signalled through the receive operation. The
state is the number of messages received so far; `sent` is the number of messages
whose `Send` has returned without error on the server end. `Recv` yields the next
message while one is left and `EOF` after the last one. Once the server has been
stopped (`grpcServer.Stop()`, which closes the connections at once) `Recv` fails with
a transport error, and what was sent but not received by then is lost. -/
def clientEnd (sent : Nat) (stopped : Bool) : ChatStream Nat where
  Send := fun n _ => (n, some ⟨"send on the receiving end"⟩)
  Recv := fun n =>
    if stopped then (n, none, some ⟨"transport is closing"⟩)
    else if n < sent then (n + 1, some helloMsg, none)
    else (n, none, some ⟨"EOF"⟩)

/-- Modelled from the spec: whether `Recv` on the client end returns now rather than
blocks: the server has been stopped, or a message is left to receive, or the handler
of the stream has returned (which ends the stream). -/
def clientReady (sent : Nat) (ended stopped : Bool) (n : Nat) : Bool :=
  stopped || decide (n < sent) || ended

/-- A goroutine running `chaincodeTask(&serialStream{cs: stream})`: the wrapper around
the client end of its stream, whether `chaincodeTask` has returned, and the error of
the `Recv` that made it return. -/
structure Consumer where
  stream : serialStream Nat
  done : Bool
  err : Option GoError

/-- A consumer before its first `Recv`: a fresh wrapper, nothing received. -/
def Consumer.start : Consumer :=
  { stream := { cs := 0, lock := false }, done := false, err := none }

/-- One iteration of the loop of `chaincodeTask` on the wrapper:
`_, err := stream.Recv()` through `serialStream.Recv`, and `return` when `err != nil`.
Nothing happens while `Recv` blocks, or after the return. -/
def chaincodeStep (sent : Nat) (ended stopped : Bool) (c : Consumer) : Consumer :=
  if c.done then c
  else if clientReady sent ended stopped c.stream.cs then
    match serialStream.Recv (clientEnd sent stopped) c.stream with
    | none => c
    | some (w, _, some e) => { stream := w, done := true, err := some e }
    | some (w, _, none) => { c with stream := w }
  else c

/-- A run of a topology with both sides in one process: the fan-out of the serving
side; which handlers have returned; whether `cfg.allDone` has been closed; whether
`grpcServer.Stop()` has run; and the consumer of every stream. -/
structure TopoRun (σ : Type) where
  fan : FanOut σ
  handlerDone : Nat → Bool
  allDone : Bool
  stopped : Bool
  consumers : Nat → Consumer

/-- Scheduler events of a run: an event of the fan-out; the handler of stream `k`
returns; `close(cfg.allDone)`; the deferred `grpcServer.Stop()`; the consumer of stream
`k` runs one iteration. -/
inductive TopoEvent where
  | fan (e : FanEvent)
  | handlerReturn (k : Nat)
  | closeAllDone
  | stop
  | recv (k : Nat)
deriving DecidableEq, Repr

/-- Start of a run over the given wrappers. -/
def TopoRun.start {σ : Type} (pool : List (serialStream σ)) : TopoRun σ :=
  { fan := FanOut.start pool, handlerDone := fun _ => false, allDone := false,
    stopped := false, consumers := fun _ => Consumer.start }

/-- One event of a run of Normal (normal.go). The handler runs the fan-out on its one
wrapper and returns when `cfg.wg.Wait()` returns, which ends the stream (lines
25-33). `chaincode` runs `chaincodeTask` on the stream and then does
`close(cfg.allDone)` (lines 65-67). `peer` waits on `cfg.allDone`; its deferred
`grpcServer.Stop()` runs after that (lines 45-47). After a `log.Fatalf` nothing
runs. -/
def Normal.step {σ : Type} (S : ChatStream σ) (st : TopoRun σ) (ev : TopoEvent) :
    TopoRun σ :=
  match st.fan.fatal with
  | some _ => st
  | none =>
    match ev with
    | TopoEvent.fan e => { st with fan := FanOut.step S (fun _ => 0) st.fan e }
    | TopoEvent.handlerReturn _ =>
      if st.fan.waitReturns then
        { st with handlerDone := Function.update st.handlerDone 0 true }
      else st
    | TopoEvent.recv _ =>
      { st with
        consumers := Function.update st.consumers 0
          (chaincodeStep (FanOut.sendsOn (fun _ => 0) st.fan.j 0) (st.handlerDone 0)
            st.stopped (st.consumers 0)) }
    | TopoEvent.closeAllDone =>
      if (st.consumers 0).done then { st with allDone := true } else st
    | TopoEvent.stop => if st.allDone then { st with stopped := true } else st

/-- The state reached from `st` by a schedule of events of Normal. -/
def Normal.runFrom {σ : Type} (S : ChatStream σ) (st : TopoRun σ) (sched : List TopoEvent) :
    TopoRun σ :=
  sched.foldl (Normal.step S) st

/-- The state of a run of Normal after a schedule of events: the handler starts from
one fresh wrapper around the accepted stream. -/
def Normal.run {σ : Type} (S : ChatStream σ) (stream : σ) (sched : List TopoEvent) :
    TopoRun σ :=
  Normal.runFrom S (TopoRun.start [{ cs := stream, lock := false }]) sched

/-- A whole run of Normal: the fan-out of the handler under the schedule
`FanOut.fullSchedule`, the return of the handler, 1280000 iterations of the consumer
and one more, `close(cfg.allDone)` and the stop of the server. -/
def Normal.fullSchedule : List TopoEvent :=
  FanOut.fullSchedule.map TopoEvent.fan ++
    (TopoEvent.handlerReturn 0 ::
      (List.replicate 1280000 (TopoEvent.recv 0) ++
        [TopoEvent.recv 0, TopoEvent.closeAllDone, TopoEvent.stop]))

/-- One event of a run of Sharding (sharding.go) once the pool is registered. `peer`
runs the fan-out over the pool and, when `cfg.wg.Wait()` returns, does
`close(cfg.allDone)` and returns, so that its deferred `grpcServer.Stop()` runs (lines
53 and 67-69). The handler of a stream waits on `cfg.allDone` and then returns, which
ends the stream (line 41). The consumers run `chaincodeTask` on their streams (lines
92-95). Nothing in `peer` waits for a consumer. After a `log.Fatalf` nothing runs. -/
def Sharding.step {σ : Type} (S : ChatStream σ) (slot : Nat → Nat) (st : TopoRun σ)
    (ev : TopoEvent) : TopoRun σ :=
  match st.fan.fatal with
  | some _ => st
  | none =>
    match ev with
    | TopoEvent.fan e => { st with fan := FanOut.step S slot st.fan e }
    | TopoEvent.closeAllDone =>
      if st.fan.waitReturns then { st with allDone := true } else st
    | TopoEvent.handlerReturn k =>
      if st.allDone then { st with handlerDone := Function.update st.handlerDone k true }
      else st
    | TopoEvent.stop => if st.allDone then { st with stopped := true } else st
    | TopoEvent.recv k =>
      { st with
        consumers := Function.update st.consumers k
          (chaincodeStep (FanOut.sendsOn slot st.fan.j k) (st.handlerDone k)
            st.stopped (st.consumers k)) }

/-- The state reached from `st` by a schedule of events of Sharding. -/
def Sharding.runFrom {σ : Type} (S : ChatStream σ) (slot : Nat → Nat) (st : TopoRun σ)
    (sched : List TopoEvent) : TopoRun σ :=
  sched.foldl (Sharding.step S slot) st

/-- The state of a run of Sharding over the registered pool after a schedule of
events. -/
def Sharding.run {σ : Type} (S : ChatStream σ) (pool : List (serialStream σ))
    (sched : List TopoEvent) : TopoRun σ :=
  Sharding.runFrom S (Sharding.slot pool) (TopoRun.start pool) sched

/-- The number of messages the consumer of stream `k` receives before the server is
stopped in the schedule `Sharding.lossySchedule`: all 40000 on every stream but the
last, where the last message is still on its way. -/
def Sharding.quota (k : Nat) : Nat := if k = 31 then 39999 else 40000

/-- The consumers of the first `m` streams, one after the other, each for
`Sharding.quota` iterations. -/
def Sharding.recvs (m : Nat) : List TopoEvent :=
  (List.range m).flatMap (fun k => List.replicate (Sharding.quota k) (TopoEvent.recv k))

/-- A whole run of Sharding: the fan-out of `peer` under `FanOut.fullSchedule`; the
consumers receive what `Sharding.quota` gives; `peer` closes `cfg.allDone` and returns,
and its deferred `grpcServer.Stop()` runs; every consumer then runs one more
iteration. -/
def Sharding.lossySchedule : List TopoEvent :=
  FanOut.fullSchedule.map TopoEvent.fan ++
    (Sharding.recvs 32 ++
      (TopoEvent.closeAllDone :: TopoEvent.stop :: (List.range 32).map TopoEvent.recv))

/-- Invariant of a run of Normal. The fan-out invariant holds on the one wrapper; the
handler has returned only after `cfg.wg.Wait()`; the consumer has received no more
than was sent; it has returned only after the handler, with everything that was sent
received, 1280000 messages, and on the end of the stream rather than on a transport
error; `cfg.allDone` is closed only after the consumer has returned, and the server is
stopped only after that. -/
structure Normal.Inv {σ : Type} (st : TopoRun σ) : Prop where
  fanInv : FanOut.Inv (fun _ => 0) 1 st.fan
  hdone : st.handlerDone 0 = true → st.fan.waitReturns = true
  cfree : (st.consumers 0).stream.lock = false
  recvLe : (st.consumers 0).stream.cs ≤ FanOut.sendsOn (fun _ => 0) st.fan.j 0
  cdone : (st.consumers 0).done = true →
    st.handlerDone 0 = true ∧ (st.consumers 0).stream.cs = 1280000 ∧
      (st.consumers 0).err = some ⟨"EOF"⟩
  adone : st.allDone = true → (st.consumers 0).done = true
  sdone : st.stopped = true → st.allDone = true

/-- The stream that never fails, used as a concrete input: every `Send` succeeds. -/
def okStream : ChatStream Nat := scriptedStream (fun _ => false) (fun _ => false)

/-- Invariant of a shared wrapper: a call in flight holds the mutex, and two calls in
flight belong to the same goroutine. -/
def Shared.Inv (st : Shared) : Prop :=
  (∀ g op, st.callers g = Caller.inFlight op → st.lock = true) ∧
    ∀ g1 g2 op1 op2, st.callers g1 = Caller.inFlight op1 →
      st.callers g2 = Caller.inFlight op2 → g1 = g2

/-! ## Lemmas on the two loops -/

theorem sendErr_succ {σ : Type} (S : ChatStream σ) (m : ChatMessage) (s : σ) (i : Nat) :
    sendErr S m s (i + 1) = sendErr S m (S.Send s m).1 i := rfl

theorem recvErr_succ {σ : Type} (S : ChatStream σ) (s : σ) (i : Nat) :
    recvErr S s (i + 1) = recvErr S (S.Recv s).1 i := rfl

theorem peerTaskLoop_ok {σ : Type} (S : ChatStream σ) (n : Nat) :
    ∀ (s : σ) (log : List Call), (∀ i, i < n → sendErr S helloMsg s i = none) →
      peerTaskLoop (traced S) n (s, log) =
        (Outcome.returned, afterSends S helloMsg n s,
          log ++ List.replicate n (Call.send helloMsg)) := by
  induction n with
  | zero => intro s log _; simp [peerTaskLoop, afterSends]
  | succ n ih =>
    intro s log h
    have h0 : (S.Send s helloMsg).2 = none := h 0 (Nat.succ_pos n)
    have hrest : ∀ i, i < n → sendErr S helloMsg (S.Send s helloMsg).1 i = none := by
      intro i hi
      rw [← sendErr_succ]
      exact h (i + 1) (Nat.succ_lt_succ hi)
    have step := ih (S.Send s helloMsg).1 (log ++ [Call.send helloMsg]) hrest
    simp only [peerTaskLoop, traced, h0, afterSends]
    simp only [traced] at step
    rw [step, List.replicate_succ, List.append_assoc]
    rfl

theorem peerTaskLoop_fail {σ : Type} (S : ChatStream σ) (e : GoError) (k : Nat) :
    ∀ (n : Nat) (s : σ) (log : List Call), k < n →
      (∀ i, i < k → sendErr S helloMsg s i = none) →
      sendErr S helloMsg s k = some e →
      peerTaskLoop (traced S) n (s, log) =
        (Outcome.fatal e, afterSends S helloMsg (k + 1) s,
          log ++ List.replicate (k + 1) (Call.send helloMsg)) := by
  induction k with
  | zero =>
    intro n s log hn _ hfail
    obtain ⟨n, rfl⟩ : ∃ n0, n = n0 + 1 := ⟨n - 1, by omega⟩
    have h0 : (S.Send s helloMsg).2 = some e := hfail
    simp [peerTaskLoop, traced, h0, afterSends]
  | succ k ih =>
    intro n s log hn hok hfail
    obtain ⟨n, rfl⟩ : ∃ n0, n = n0 + 1 := ⟨n - 1, by omega⟩
    have h0 : (S.Send s helloMsg).2 = none := hok 0 (Nat.succ_pos k)
    have hrest : ∀ i, i < k → sendErr S helloMsg (S.Send s helloMsg).1 i = none := by
      intro i hi
      rw [← sendErr_succ]
      exact hok (i + 1) (Nat.succ_lt_succ hi)
    have step := ih n (S.Send s helloMsg).1 (log ++ [Call.send helloMsg])
      (by omega) hrest (by rw [← sendErr_succ]; exact hfail)
    simp only [peerTaskLoop, traced, h0]
    simp only [traced] at step
    rw [step, List.replicate_succ (n := k + 1), List.append_assoc]
    rfl

theorem chaincodeTask_stop {σ : Type} (S : ChatStream σ) (e : GoError) (n : Nat) :
    ∀ (fuel : Nat) (s : σ) (log : List Call), n < fuel →
      (∀ i, i < n → recvErr S s i = none) →
      recvErr S s n = some e →
      chaincodeTask (traced S) fuel (s, log) =
        some (Outcome.returned, afterRecvs S (n + 1) s,
          log ++ List.replicate (n + 1) Call.recv) := by
  induction n with
  | zero =>
    intro fuel s log hn _ hfail
    obtain ⟨fuel, rfl⟩ : ∃ f0, fuel = f0 + 1 := ⟨fuel - 1, by omega⟩
    have h0 : (S.Recv s).2.2 = some e := hfail
    simp [chaincodeTask, traced, h0, afterRecvs]
  | succ n ih =>
    intro fuel s log hn hok hfail
    obtain ⟨fuel, rfl⟩ : ∃ f0, fuel = f0 + 1 := ⟨fuel - 1, by omega⟩
    have h0 : (S.Recv s).2.2 = none := hok 0 (Nat.succ_pos n)
    have hrest : ∀ i, i < n → recvErr S (S.Recv s).1 i = none := by
      intro i hi
      rw [← recvErr_succ]
      exact hok (i + 1) (Nat.succ_lt_succ hi)
    have step := ih fuel (S.Recv s).1 (log ++ [Call.recv])
      (by omega) hrest (by rw [← recvErr_succ]; exact hfail)
    simp only [chaincodeTask, traced, h0]
    simp only [traced] at step
    rw [step, List.replicate_succ (n := n + 1), List.append_assoc]
    rfl

theorem peerTask_fatal_iff {σ : Type} (S : ChatStream σ) (s : σ) :
    (∃ e, (peerTask (traced S) (s, [])).1 = Outcome.fatal e) ↔
      ∃ i, i < 10000 ∧ sendErr S helloMsg s i ≠ none := by
  constructor
  · rintro ⟨e, he⟩
    by_contra hno
    have hall : ∀ i, i < 10000 → sendErr S helloMsg s i = none := by
      intro i hi
      by_contra hne
      exact hno ⟨i, hi, hne⟩
    have := peerTaskLoop_ok S 10000 s [] hall
    rw [peerTask, this] at he
    cases he
  · intro hex
    classical
    have hk := Nat.find_spec hex
    have hmin : ∀ i, i < Nat.find hex → sendErr S helloMsg s i = none := by
      intro i hi
      by_contra hne
      exact Nat.find_min hex hi ⟨lt_trans hi hk.1, hne⟩
    obtain ⟨e, he⟩ := Option.ne_none_iff_exists'.mp hk.2
    exact ⟨e, by rw [peerTask, peerTaskLoop_fail S e (Nat.find hex) 10000 s [] hk.1 hmin he]⟩

/-! ## Claims on the wrapper and the two tasks -/

/-- C1: `serialStream.Send(m)` on a wrapper whose mutex is free makes exactly one
call `cs.Send(m)` on the wrapped stream, with the same message, and returns that
call's error unchanged; `serialStream.Recv()` makes exactly one call `cs.Recv()` and
returns its message and error unchanged. The record of calls on the wrapped stream
grows by that single call, the wrapped stream is left in the state the call left it
in, and the mutex is free again. -/
theorem serialStream_transparent {σ : Type} (S : ChatStream σ) (s : σ) (log : List Call)
    (m : ChatMessage) :
    serialStream.Send (traced S) { cs := (s, log), lock := false } m =
        some ({ cs := ((S.Send s m).1, log ++ [Call.send m]), lock := false },
          (S.Send s m).2) ∧
      serialStream.Recv (traced S) { cs := (s, log), lock := false } =
        some ({ cs := ((S.Recv s).1, log ++ [Call.recv]), lock := false },
          (S.Recv s).2) := by
  constructor <;> simp [serialStream.Send, serialStream.Recv, traced]

/-- C5: on a stream on which none of the first 10000 consecutive sends of the hello
message fails, `peerTask` returns normally and the calls it made on the stream are
exactly 10000 `Send`s of the message with text "Hello!", in sequence, and no `Recv`. -/
theorem peerTask_sends_10000 {σ : Type} (S : ChatStream σ) (s : σ)
    (hok : ∀ i, i < 10000 → sendErr S helloMsg s i = none) :
    peerTask (traced S) (s, []) =
        (Outcome.returned, afterSends S helloMsg 10000 s,
          List.replicate 10000 (Call.send ⟨"Hello!"⟩)) := by
  have h := peerTaskLoop_ok S 10000 s [] hok
  rw [List.nil_append] at h
  exact h

theorem peerTask_sends_10000_witness :
    (∀ i, i < 10000 →
        sendErr (scriptedStream (fun _ => false) (fun _ => false)) helloMsg 0 i = none) ∧
      peerTask (traced (scriptedStream (fun _ => false) (fun _ => false))) (0, []) =
        (Outcome.returned,
          afterSends (scriptedStream (fun _ => false) (fun _ => false)) helloMsg 10000 0,
          List.replicate 10000 (Call.send ⟨"Hello!"⟩)) :=
  ⟨fun _ _ => rfl,
   peerTask_sends_10000 (scriptedStream (fun _ => false) (fun _ => false)) 0
     (fun _ _ => rfl)⟩

/-- C6: when `Send` number `k` (1 ≤ k ≤ 10000) is the first to return an error `e`,
`peerTask` makes exactly `k` `Send`s, none after the failing one, and ends in the
fatal outcome carrying `e`; and `peerTask` ends fatally if and only if one of the
first 10000 `Send`s fails. -/
theorem peerTask_fatal_on_first_error {σ : Type} (S : ChatStream σ) (s : σ) :
    (∀ (k : Nat) (e : GoError), 1 ≤ k → k ≤ 10000 →
        (∀ i, i + 1 < k → sendErr S helloMsg s i = none) →
        sendErr S helloMsg s (k - 1) = some e →
        peerTask (traced S) (s, []) =
          (Outcome.fatal e, afterSends S helloMsg k s,
            List.replicate k (Call.send ⟨"Hello!"⟩))) ∧
      ((∃ e, (peerTask (traced S) (s, [])).1 = Outcome.fatal e) ↔
        ∃ i, i < 10000 ∧ sendErr S helloMsg s i ≠ none) := by
  refine ⟨?_, peerTask_fatal_iff S s⟩
  intro k e hk1 hk2 hok hfail
  obtain ⟨k, rfl⟩ : ∃ k0, k = k0 + 1 := ⟨k - 1, by omega⟩
  have h := peerTaskLoop_fail S e k 10000 s [] (by omega)
    (fun i hi => hok i (by omega)) hfail
  rw [List.nil_append] at h
  exact h

theorem peerTask_fatal_on_first_error_witness :
    peerTask (traced (scriptedStream (fun k => k == 3) (fun _ => false))) (0, []) =
      (Outcome.fatal ⟨"send failed"⟩, 3,
        [Call.send ⟨"Hello!"⟩, Call.send ⟨"Hello!"⟩, Call.send ⟨"Hello!"⟩]) :=
  (peerTask_fatal_on_first_error (scriptedStream (fun k => k == 3) (fun _ => false)) 0).1
    3 ⟨"send failed"⟩ (by decide) (by decide)
    (fun i hi => by
      have h2 : i = 0 ∨ i = 1 := by omega
      rcases h2 with rfl | rfl <;> rfl)
    rfl

/-- C7: when `Recv` succeeds `n` times (any `n`) and `Recv` number `n + 1` returns an
error, whatever it is, `chaincodeTask` given at least `n + 1` iterations of fuel
returns normally, and the calls it made are exactly `n + 1` `Recv`s: no `Send`, and no
`Recv` after the failing one. -/
theorem chaincodeTask_stops_at_first_error {σ : Type} (S : ChatStream σ) (s : σ)
    (n fuel : Nat) (e : GoError) (hfuel : n + 1 ≤ fuel)
    (hok : ∀ i, i < n → recvErr S s i = none) (hfail : recvErr S s n = some e) :
    chaincodeTask (traced S) fuel (s, []) =
      some (Outcome.returned, afterRecvs S (n + 1) s, List.replicate (n + 1) Call.recv) := by
  have h := chaincodeTask_stop S e n fuel s [] (by omega) hok hfail
  rw [List.nil_append] at h
  exact h

theorem chaincodeTask_stops_at_first_error_witness :
    chaincodeTask (traced (scriptedStream (fun _ => false) (fun k => k == 3))) 5 (0, []) =
      some (Outcome.returned, 3, [Call.recv, Call.recv, Call.recv]) :=
  chaincodeTask_stops_at_first_error (scriptedStream (fun _ => false) (fun k => k == 3)) 0
    2 5 ⟨"EOF"⟩ (by decide)
    (fun i hi => by
      have h2 : i = 0 ∨ i = 1 := by omega
      rcases h2 with rfl | rfl <;> rfl)
    rfl

/-! ## Mutual exclusion on a shared serialStream -/

theorem Shared.inv_start : Shared.Inv Shared.start := by
  constructor
  · intro g op h; simp [Shared.start] at h
  · intro g1 g2 op1 op2 h; simp [Shared.start] at h

theorem Shared.inv_step (st : Shared) (ev : Event) (h : Shared.Inv st) :
    Shared.Inv (st.step ev) := by
  obtain ⟨hl, hu⟩ := h
  cases ev with
  | call g op =>
    simp only [Shared.step]
    split
    · rename_i hidle
      constructor
      · intro g1 op1 h1
        by_cases hg : g1 = g
        · subst hg; simp at h1
        · simp only [Function.update_noteq hg] at h1
          exact hl g1 op1 h1
      · intro g1 g2 op1 op2 h1 h2
        by_cases hg1 : g1 = g
        · subst hg1; simp at h1
        · by_cases hg2 : g2 = g
          · subst hg2; simp at h2
          · simp only [Function.update_noteq hg1] at h1
            simp only [Function.update_noteq hg2] at h2
            exact hu g1 g2 op1 op2 h1 h2
    · exact ⟨hl, hu⟩
  | acquire g =>
    simp only [Shared.step]
    split
    · rename_i op hw
      cases hlock : st.lock with
      | true => simp only [if_true]; exact ⟨hl, hu⟩
      | false =>
        have hfree : ∀ g1 op1, st.callers g1 ≠ Caller.inFlight op1 := by
          intro g1 op1 h1
          have := hl g1 op1 h1
          rw [hlock] at this
          cases this
        simp only [Bool.false_eq_true, if_false]
        constructor
        · intro _ _ _; rfl
        · intro g1 g2 op1 op2 h1 h2
          by_cases hg1 : g1 = g
          · by_cases hg2 : g2 = g
            · rw [hg1, hg2]
            · simp only [Function.update_noteq hg2] at h2
              exact absurd h2 (hfree g2 op2)
          · simp only [Function.update_noteq hg1] at h1
            exact absurd h1 (hfree g1 op1)
    · exact ⟨hl, hu⟩
  | finish g =>
    simp only [Shared.step]
    split
    · rename_i op hin
      have hnone : ∀ g1 op1, g1 ≠ g → st.callers g1 ≠ Caller.inFlight op1 :=
        fun g1 op1 hne h1 => hne (hu g1 g op1 op h1 hin)
      constructor
      · intro g1 op1 h1
        by_cases hg1 : g1 = g
        · subst hg1; simp at h1
        · simp only [Function.update_noteq hg1] at h1
          exact absurd h1 (hnone g1 op1 hg1)
      · intro g1 g2 op1 op2 h1 h2
        by_cases hg1 : g1 = g
        · subst hg1; simp at h1
        · simp only [Function.update_noteq hg1] at h1
          exact absurd h1 (hnone g1 op1 hg1)
    · exact ⟨hl, hu⟩

theorem Shared.inv_foldl (evs : List Event) :
    ∀ st : Shared, Shared.Inv st → Shared.Inv (evs.foldl Shared.step st) := by
  induction evs with
  | nil => intro st h; exact h
  | cons ev evs ih => intro st h; exact ih (st.step ev) (Shared.inv_step st ev h)

theorem Shared.inv_run (evs : List Event) : Shared.Inv (Shared.run evs) :=
  Shared.inv_foldl evs Shared.start Shared.inv_start

/-- C2, as the code has it: on a `serialStream` shared by any number of goroutines,
under every schedule, two calls in flight on the wrapped stream belong to the same
goroutine, whatever the two operations are. So two `Send`s, two `Recv`s, and also a
`Send` and a `Recv`, are never in flight at the same instant: the wrapper has one
mutex for both directions. -/
theorem serialStream_one_call_in_flight (evs : List Event) (g1 g2 : Nat) (op1 op2 : Op)
    (h1 : (Shared.run evs).callers g1 = Caller.inFlight op1)
    (h2 : (Shared.run evs).callers g2 = Caller.inFlight op2) : g1 = g2 :=
  (Shared.inv_run evs).2 g1 g2 op1 op2 h1 h2

theorem serialStream_one_call_in_flight_witness :
    (Shared.run [Event.call 0 Op.send, Event.call 1 Op.recv, Event.acquire 0]).callers 0 =
        Caller.inFlight Op.send ∧ (0 : Nat) = 0 :=
  ⟨rfl, serialStream_one_call_in_flight
    [Event.call 0 Op.send, Event.call 1 Op.recv, Event.acquire 0] 0 0 Op.send Op.send rfl rfl⟩

/-- C2 as stated fails: with goroutine 0 in `Send` and goroutine 1 in `Recv` on the
same wrapper, once `Send` holds the mutex the `Recv` stays at `lock.Lock()`, and under
no schedule are a `Send` and a `Recv` of two goroutines in flight together. -/
theorem serialStream_send_recv_not_concurrent :
    (Shared.run [Event.call 0 Op.send, Event.call 1 Op.recv, Event.acquire 0,
        Event.acquire 1]).callers 0 = Caller.inFlight Op.send ∧
      (Shared.run [Event.call 0 Op.send, Event.call 1 Op.recv, Event.acquire 0,
        Event.acquire 1]).callers 1 = Caller.waiting Op.recv ∧
      ¬ ∃ (evs : List Event) (g1 g2 : Nat), g1 ≠ g2 ∧
          (Shared.run evs).callers g1 = Caller.inFlight Op.send ∧
          (Shared.run evs).callers g2 = Caller.inFlight Op.recv := by
  refine ⟨rfl, rfl, ?_⟩
  rintro ⟨evs, g1, g2, hne, h1, h2⟩
  exact hne ((Shared.inv_run evs).2 g1 g2 Op.send Op.recv h1 h2)

/-! ## The listener of the Reversal topology -/

theorem ListenerRun.connsReturned_append (r : ListenerRun) (l : List (Nat × AcceptResult)) :
    ListenerRun.connsReturned { r with returned := r.returned ++ l } =
      r.connsReturned + (l.filter (fun p => p.2.1.isSome)).length := by
  simp [ListenerRun.connsReturned, List.filter_append]

theorem ListenerRun.closed_entries_no_conn (l : List Nat) :
    ((l.map (fun g => (g, ReversalListener.acceptReturn none false))).filter
      (fun p => p.2.1.isSome)).length = 0 := by
  induction l with
  | nil => rfl
  | cons g l ih => simp [ReversalListener.acceptReturn]

/-- One event returns at most one more connection, and only a send on `connc` adds
to the total of connections returned and connections still offered. -/
theorem ListenerRun.step_bound (r : ListenerRun) (ev : LisEvent) :
    (r.step ev).connsReturned + (r.step ev).lis.connc.sendq.length ≤
      r.connsReturned + r.lis.connc.sendq.length + (if ev.isDeliver then 1 else 0) := by
  cases ev with
  | accept g =>
    simp only [ListenerRun.step, LisEvent.isDeliver]
    split
    · simp
    · split
      · rename_i c rest hq
        simp [ListenerRun.connsReturned, List.filter_append, hq,
          ReversalListener.acceptReturn]
        omega
      · rename_i hq
        split
        · simp [ListenerRun.connsReturned, List.filter_append, hq,
            ReversalListener.acceptReturn]
        · simp [ListenerRun.connsReturned, hq]
  | deliver c =>
    simp only [ListenerRun.step, LisEvent.isDeliver]
    split
    · simp
    · split
      · simp [ListenerRun.connsReturned]
      · split
        · simp [ListenerRun.connsReturned, List.filter_append,
            ReversalListener.acceptReturn]
          omega
        · simp [ListenerRun.connsReturned]
          omega
  | close =>
    simp only [ListenerRun.step, LisEvent.isDeliver]
    split
    · simp
    · split
      · simp [ListenerRun.connsReturned]
      · have h0 := ListenerRun.closed_entries_no_conn r.lis.connc.recvq
        simp only [ListenerRun.connsReturned, List.filter_append, List.length_append, h0]
        simp

theorem ListenerRun.foldl_bound (evs : List LisEvent) :
    ∀ r : ListenerRun,
      (evs.foldl ListenerRun.step r).connsReturned +
          (evs.foldl ListenerRun.step r).lis.connc.sendq.length ≤
        r.connsReturned + r.lis.connc.sendq.length + evs.countP LisEvent.isDeliver := by
  induction evs with
  | nil => intro r; simp
  | cons ev evs ih =>
    intro r
    have h1 := ih (r.step ev)
    have h2 := ListenerRun.step_bound r ev
    simp only [List.foldl_cons, List.countP_cons]
    omega

theorem ListenerRun.run_bound (evs : List LisEvent) :
    (ListenerRun.run evs).connsReturned ≤ evs.countP LisEvent.isDeliver := by
  have h := ListenerRun.foldl_bound evs ListenerRun.start
  simp only [ListenerRun.run]
  have h0 : ListenerRun.start.connsReturned + ListenerRun.start.lis.connc.sendq.length = 0 := rfl
  omega

theorem ListenerRun.onlyConn_step (conn : Conn) (r : ListenerRun) (ev : LisEvent)
    (hev : ∀ c, ev = LisEvent.deliver c → c = conn) (h : ListenerRun.OnlyConn conn r) :
    ListenerRun.OnlyConn conn (r.step ev) := by
  obtain ⟨hret, hq⟩ := h
  cases ev with
  | accept g =>
    simp only [ListenerRun.step]
    split
    · exact ⟨hret, hq⟩
    · split
      · rename_i c rest hsq
        have hc : c = conn := hq c (by rw [hsq]; exact List.mem_cons_self c rest)
        constructor
        · intro p hp
          rcases List.mem_append.mp hp with hp | hp
          · exact hret p hp
          · rw [List.mem_singleton] at hp
            left; rw [hp, hc]; rfl
        · intro c2 hc2
          exact hq c2 (by rw [hsq]; exact List.mem_cons_of_mem c hc2)
      · split
        · constructor
          · intro p hp
            rcases List.mem_append.mp hp with hp | hp
            · exact hret p hp
            · rw [List.mem_singleton] at hp
              right; rw [hp]; rfl
          · exact hq
        · exact ⟨hret, hq⟩
  | deliver c =>
    have hc : c = conn := hev c rfl
    simp only [ListenerRun.step]
    split
    · exact ⟨hret, hq⟩
    · split
      · exact ⟨hret, hq⟩
      · split
        · constructor
          · intro p hp
            rcases List.mem_append.mp hp with hp | hp
            · exact hret p hp
            · rw [List.mem_singleton] at hp
              left; rw [hp, hc]; rfl
          · exact hq
        · constructor
          · exact hret
          · intro c2 hc2
            rcases List.mem_append.mp hc2 with hc2 | hc2
            · exact hq c2 hc2
            · rw [List.mem_singleton] at hc2
              rw [hc2, hc]
  | close =>
    simp only [ListenerRun.step]
    split
    · exact ⟨hret, hq⟩
    · split
      · exact ⟨hret, hq⟩
      · constructor
        · intro p hp
          rcases List.mem_append.mp hp with hp | hp
          · exact hret p hp
          · obtain ⟨g, _, hg⟩ := List.mem_map.mp hp
            right; rw [← hg]; rfl
        · intro c2 hc2; cases hc2

theorem ListenerRun.onlyConn_foldl (conn : Conn) (evs : List LisEvent) :
    ∀ r : ListenerRun, (∀ c, LisEvent.deliver c ∈ evs → c = conn) →
      ListenerRun.OnlyConn conn r →
      ListenerRun.OnlyConn conn (evs.foldl ListenerRun.step r) := by
  induction evs with
  | nil => intro r _ h; exact h
  | cons ev evs ih =>
    intro r hev h
    apply ih (r.step ev) (fun c hc => hev c (List.mem_cons_of_mem ev hc))
    exact ListenerRun.onlyConn_step conn r ev
      (fun c hc => hev c (by rw [hc]; exact List.mem_cons_self _ _)) h

theorem Reversal.chaincodeEvents_delivers (conn : Conn) (pre mid post : List Nat) :
    (Reversal.chaincodeEvents conn pre mid post).countP LisEvent.isDeliver = 1 ∧
      ∀ c, LisEvent.deliver c ∈ Reversal.chaincodeEvents conn pre mid post → c = conn := by
  have hz : ∀ l : List Nat, (l.map LisEvent.accept).countP LisEvent.isDeliver = 0 := by
    intro l
    rw [List.countP_eq_zero]
    intro e he
    obtain ⟨g, _, hg⟩ := List.mem_map.mp he
    rw [← hg]; simp [LisEvent.isDeliver]
  have hm : ∀ (l : List Nat) (c : Conn), LisEvent.deliver c ∉ l.map LisEvent.accept := by
    intro l c he
    obtain ⟨g, _, hg⟩ := List.mem_map.mp he
    cases hg
  constructor
  · simp only [Reversal.chaincodeEvents, List.countP_append, List.countP_cons, hz,
      LisEvent.isDeliver]
    simp
  · intro c hc
    simp only [Reversal.chaincodeEvents, List.mem_append, List.mem_cons] at hc
    rcases hc with hc | hc | hc | hc | hc
    · exact absurd hc (hm pre c)
    · cases hc; rfl
    · exact absurd hc (hm mid c)
    · cases hc
    · exact absurd hc (hm post c)

/-- C3: an `Accept` called on an open listener with no pending delivery and no other
pending `Accept` blocks (it returns nothing and waits on `connc`), and when a
connection `c` is then sent on `connc` it returns exactly `(c, nil)`; an `Accept`
called on a closed listener with no pending delivery returns at once, without
waiting, no connection and the non-nil error "connc closed". -/
theorem accept_hands_over_or_reports_closure (r : ListenerRun) (g : Nat) (c : Conn)
    (hp : r.panicked = false) (hs : r.lis.connc.sendq = []) :
    (r.lis.connc.closed = false → r.lis.connc.recvq = [] →
        (r.step (LisEvent.accept g)).returned = r.returned ∧
        (r.step (LisEvent.accept g)).lis.connc.recvq = [g] ∧
        ((r.step (LisEvent.accept g)).step (LisEvent.deliver c)).returned =
          r.returned ++ [(g, (some c, none))] ∧
        ((r.step (LisEvent.accept g)).step (LisEvent.deliver c)).lis.connc.recvq = []) ∧
      (r.lis.connc.closed = true →
        (r.step (LisEvent.accept g)).returned =
          r.returned ++ [(g, (none, some ⟨"connc closed"⟩))] ∧
        (r.step (LisEvent.accept g)).lis.connc.recvq = r.lis.connc.recvq) := by
  constructor
  · intro hc hr
    simp [ListenerRun.step, hp, hs, hc, hr, ReversalListener.acceptReturn]
  · intro hc
    simp [ListenerRun.step, hp, hs, hc, ReversalListener.acceptReturn]

theorem accept_hands_over_or_reports_closure_witness :
    ((ListenerRun.start.step (LisEvent.accept 0)).step (LisEvent.deliver 7)).returned =
        [(0, (some 7, none))] ∧
      ((ListenerRun.run [LisEvent.close]).step (LisEvent.accept 0)).returned =
        [(0, (none, some ⟨"connc closed"⟩))] :=
  ⟨((accept_hands_over_or_reports_closure ListenerRun.start 0 7 rfl rfl).1 rfl rfl).2.2.1,
   ((accept_hands_over_or_reports_closure (ListenerRun.run [LisEvent.close]) 0 7 rfl rfl).2
      rfl).1⟩

/-- C4, as the code has it: in a run of `Reversal.chaincode`, which sends on `connc`
exactly once, at most one connection is ever returned by `Accept`, whatever the
number and timing of the `Accept` calls; every `Accept` that has returned got either
that connection or the "connc closed" failure of the closed listener. -/
theorem reversal_run_delivers_at_most_one (conn : Conn) (pre mid post : List Nat) :
    (ListenerRun.run (Reversal.chaincodeEvents conn pre mid post)).connsReturned ≤ 1 ∧
      ∀ p ∈ (ListenerRun.run (Reversal.chaincodeEvents conn pre mid post)).returned,
        p.2 = (some conn, none) ∨ p.2 = (none, some ⟨"connc closed"⟩) := by
  have hd := Reversal.chaincodeEvents_delivers conn pre mid post
  constructor
  · have h := ListenerRun.run_bound (Reversal.chaincodeEvents conn pre mid post)
    omega
  · have h := ListenerRun.onlyConn_foldl conn (Reversal.chaincodeEvents conn pre mid post)
      ListenerRun.start hd.2
      ⟨fun p hp => (by cases hp), fun c hc => (by cases hc)⟩
    exact h.1

/-- C4 as stated fails: the listener does not limit deliveries. After one connection
has been delivered and accepted, a second send on `connc` is handed to the next
pending `Accept`, which returns that second connection, not a failure. -/
theorem listener_hands_over_second_delivery :
    (ListenerRun.run [LisEvent.accept 0, LisEvent.deliver 1, LisEvent.accept 1,
        LisEvent.deliver 2]).returned = [(0, (some 1, none)), (1, (some 2, none))] ∧
      (ListenerRun.run [LisEvent.accept 0, LisEvent.deliver 1, LisEvent.accept 1,
        LisEvent.deliver 2]).connsReturned = 2 := by
  constructor <;> rfl


/-! ## Fan-out of producers -/

theorem FanOut.sendsOn_update (slot : Nat → Nat) (j : Nat → Nat) (i k : Nat) :
    FanOut.sendsOn slot (Function.update j i (j i + 1)) k =
      FanOut.sendsOn slot j k + (if i < 128 ∧ slot i = k then 1 else 0) := by
  unfold FanOut.sendsOn
  have hpt : ∀ x, Function.update j i (j i + 1) x = j x + (if i = x then 1 else 0) := by
    intro x
    by_cases h : x = i
    · subst h; simp
    · rw [Function.update_noteq h]; simp [Ne.symm h]
  simp only [hpt, Finset.sum_add_distrib, Finset.sum_ite_eq]
  simp [FanOut.workersOf]

/-- Changing where one started goroutine stands changes the count of pending
goroutines by the difference of its two contributions. -/
theorem Pc.sum_pending_update (pc : Nat → Pc) (n i : Nat) (v : Pc) (hi : i < n) :
    ∑ x ∈ Finset.range n, (Function.update pc i v x).pending + (pc i).pending =
      ∑ x ∈ Finset.range n, (pc x).pending + v.pending := by
  have hmem : i ∈ Finset.range n := Finset.mem_range.mpr hi
  have hcomp : (fun x => (Function.update pc i v x).pending) =
      Function.update (fun x => (pc x).pending) i v.pending := by
    funext x
    by_cases hx : x = i
    · subst hx; simp
    · simp [Function.update_noteq hx]
  have h1 : ∑ x ∈ Finset.range n, (Function.update pc i v x).pending =
      v.pending + ∑ x ∈ Finset.range n \ {i}, (pc x).pending := by
    rw [hcomp]
    exact Finset.sum_update_of_mem hmem _ _
  have h2 : ∑ x ∈ Finset.range n, (pc x).pending =
      (pc i).pending + ∑ x ∈ Finset.range n \ {i}, (pc x).pending := by
    rw [Finset.sdiff_singleton_eq_erase]
    exact (Finset.add_sum_erase _ _ hmem).symm
  omega

/-- Changing where a goroutine outside the range stands does not change the count. -/
theorem Pc.sum_pending_update_out (pc : Nat → Pc) (n i : Nat) (v : Pc) (hi : n ≤ i) :
    ∑ x ∈ Finset.range n, (Function.update pc i v x).pending =
      ∑ x ∈ Finset.range n, (pc x).pending := by
  apply Finset.sum_congr rfl
  intro x hx
  have hne : x ≠ i := by
    have := Finset.mem_range.mp hx
    omega
  rw [Function.update_noteq hne]

/-- The outcomes of one scheduler event. -/
theorem FanOut.step_cases {σ : Type} (S : ChatStream σ) (slot : Nat → Nat) (st : FanOut σ)
    (ev : FanEvent) :
    FanOut.step S slot st ev = st ∨
      (ev = FanEvent.spawn ∧ st.fatal = none ∧ st.spawned < 128 ∧
        FanOut.step S slot st ev =
          { st with spawned := st.spawned + 1,
                    pc := Function.update st.pc st.spawned Pc.inLoop,
                    wg := st.wg + 1 }) ∨
      (∃ i err, ev = FanEvent.run i ∧ st.fatal = none ∧ st.pc i = Pc.sendFailed err ∧
        FanOut.step S slot st ev = { st with fatal := some err }) ∨
      (∃ i w err, ev = FanEvent.run i ∧ st.fatal = none ∧ st.pc i = Pc.inLoop ∧
        st.j i < 10000 ∧ st.pool[slot i]? = some w ∧ w.lock = false ∧
        (S.Send w.cs.1 helloMsg).2 = some err ∧
        FanOut.step S slot st ev =
          { st with
            pool := st.pool.set (slot i)
              { cs := ((S.Send w.cs.1 helloMsg).1, w.cs.2 ++ [Call.send helloMsg]),
                lock := false },
            pc := Function.update st.pc i (Pc.sendFailed err) }) ∨
      (∃ i w, ev = FanEvent.run i ∧ st.fatal = none ∧ st.pc i = Pc.inLoop ∧
        st.j i < 10000 ∧ st.pool[slot i]? = some w ∧ w.lock = false ∧
        (S.Send w.cs.1 helloMsg).2 = none ∧
        FanOut.step S slot st ev =
          { st with
            pool := st.pool.set (slot i)
              { cs := ((S.Send w.cs.1 helloMsg).1, w.cs.2 ++ [Call.send helloMsg]),
                lock := false },
            j := Function.update st.j i (st.j i + 1) }) ∨
      (∃ i, ev = FanEvent.run i ∧ st.fatal = none ∧ st.pc i = Pc.inLoop ∧
        ¬ st.j i < 10000 ∧
        FanOut.step S slot st ev =
          { st with pc := Function.update st.pc i Pc.returned, wg := st.wg - 1 }) := by
  cases ev with
  | spawn =>
    cases hfat : st.fatal with
    | some e => left; simp [FanOut.step, hfat]
    | none =>
      by_cases hs : st.spawned < 128
      · right; left
        exact ⟨rfl, rfl, hs, by simp [FanOut.step, hfat, hs]⟩
      · left; simp [FanOut.step, hfat, hs]
  | run i =>
    cases hfat : st.fatal with
    | some e => left; simp [FanOut.step, hfat]
    | none =>
      cases hpc : st.pc i with
      | notStarted => left; simp [FanOut.step, hfat, hpc]
      | returned => left; simp [FanOut.step, hfat, hpc]
      | sendFailed err =>
        right; right; left
        exact ⟨i, err, rfl, rfl, hpc, by simp [FanOut.step, hfat, hpc]⟩
      | inLoop =>
        by_cases hj : st.j i < 10000
        · cases hw : st.pool[slot i]? with
          | none => left; simp [FanOut.step, hfat, hpc, hj, hw]
          | some w =>
            cases hl : w.lock with
            | true => left; simp [FanOut.step, hfat, hpc, hj, hw, serialStream.Send, hl]
            | false =>
              cases herr : (S.Send w.cs.1 helloMsg).2 with
              | some err =>
                right; right; right; left
                refine ⟨i, w, err, rfl, rfl, hpc, hj, hw, hl, herr, ?_⟩
                simp [FanOut.step, hfat, hpc, hj, hw, serialStream.Send, hl, traced, herr]
              | none =>
                right; right; right; right; left
                refine ⟨i, w, rfl, rfl, hpc, hj, hw, hl, herr, ?_⟩
                simp [FanOut.step, hfat, hpc, hj, hw, serialStream.Send, hl, traced, herr]
        · right; right; right; right; right
          exact ⟨i, rfl, rfl, hpc, hj, by simp [FanOut.step, hfat, hpc, hj]⟩

theorem FanOut.set_lookup {σ : Type} (pool : List (serialStream (σ × List Call)))
    (n k : Nat) (w2 w : serialStream (σ × List Call))
    (h : (pool.set n w2)[k]? = some w) : (n = k ∧ w = w2) ∨ (n ≠ k ∧ pool[k]? = some w) := by
  rw [List.getElem?_set] at h
  by_cases hnk : n = k
  · left
    rw [if_pos hnk] at h
    split at h
    · exact ⟨hnk, (Option.some.inj h).symm⟩
    · cases h
  · right
    rw [if_neg hnk] at h
    exact ⟨hnk, h⟩

theorem FanOut.fanInv_step {σ : Type} (S : ChatStream σ) (slot : Nat → Nat) (L : Nat)
    (st : FanOut σ) (ev : FanEvent) (h : FanOut.Inv slot L st) :
    FanOut.Inv slot L (FanOut.step S slot st ev) := by
  rcases FanOut.step_cases S slot st ev with heq | ⟨_, hfat, hs, heq⟩ |
    ⟨i, err, _, hfat, hpc, heq⟩ | ⟨i, w, err, _, hfat, hpc, hj, hw, hl, herr, heq⟩ |
    ⟨i, w, _, hfat, hpc, hj, hw, hl, herr, heq⟩ | ⟨i, _, hfat, hpc, hj, heq⟩
  · rw [heq]; exact h
  · -- the spawning loop starts a goroutine
    rw [heq]
    have hns : st.pc st.spawned = Pc.notStarted := h.unspawned _ (le_refl _)
    refine ⟨h.len, h.free, by show st.spawned + 1 ≤ 128; omega, ?_, h.bound, ?_, ?_, ?_, ?_⟩
    · intro x hx
      have hne : x ≠ st.spawned := by
        have : st.spawned + 1 ≤ x := hx
        omega
      show Function.update st.pc st.spawned Pc.inLoop x = Pc.notStarted
      rw [Function.update_noteq hne]
      exact h.unspawned x (by have : st.spawned + 1 ≤ x := hx; omega)
    · intro x hx
      have hx2 : Function.update st.pc st.spawned Pc.inLoop x = Pc.returned := hx
      by_cases hne : x = st.spawned
      · rw [hne, Function.update_same] at hx2; cases hx2
      · rw [Function.update_noteq hne] at hx2
        exact h.full x hx2
    · show st.wg + 1 = ((∑ x ∈ Finset.range (st.spawned + 1),
          (Function.update st.pc st.spawned Pc.inLoop x).pending : Nat) : Int)
      rw [Finset.sum_range_succ, Pc.sum_pending_update_out st.pc st.spawned st.spawned
        Pc.inLoop (le_refl _), Function.update_same, h.count]
      simp [Pc.pending]
    · intro e he
      have : st.fatal = some e := he
      rw [hfat] at this
      cases this
    · intro hnf k w hk
      apply h.logs _ k w hk
      intro x e hx
      by_cases hne : x = st.spawned
      · rw [hne, hns] at hx; cases hx
      · apply hnf x e
        show Function.update st.pc st.spawned Pc.inLoop x = Pc.sendFailed e
        rw [Function.update_noteq hne]
        exact hx
  · -- log.Fatalf
    rw [heq]
    refine ⟨h.len, h.free, h.spawnedLe, h.unspawned, h.bound, h.full, h.count, ?_, h.logs⟩
    intro e he
    have he2 : some err = some e := he
    cases he2
    exact ⟨i, hpc⟩
  · -- a Send that fails
    rw [heq]
    have hilt : i < st.spawned := by
      by_contra hge
      have := h.unspawned i (by omega)
      rw [hpc] at this
      cases this
    refine ⟨by simp [h.len], ?_, h.spawnedLe, ?_, h.bound, ?_, ?_, ?_, ?_⟩
    · intro k w2 hk
      rcases FanOut.set_lookup _ _ _ _ _ hk with ⟨_, rfl⟩ | ⟨_, hold⟩
      · rfl
      · exact h.free k w2 hold
    · intro x hx
      have hx1 : st.spawned ≤ x := hx
      have hne : x ≠ i := by omega
      show Function.update st.pc i (Pc.sendFailed err) x = Pc.notStarted
      rw [Function.update_noteq hne]
      exact h.unspawned x hx1
    · intro x hx
      have hx2 : Function.update st.pc i (Pc.sendFailed err) x = Pc.returned := hx
      by_cases hne : x = i
      · rw [hne, Function.update_same] at hx2; cases hx2
      · rw [Function.update_noteq hne] at hx2
        exact h.full x hx2
    · show st.wg = ((∑ x ∈ Finset.range st.spawned,
          (Function.update st.pc i (Pc.sendFailed err) x).pending : Nat) : Int)
      have hsum := Pc.sum_pending_update st.pc st.spawned i (Pc.sendFailed err) hilt
      have hp1 : Pc.inLoop.pending = 1 := rfl
      have hp2 : (Pc.sendFailed err).pending = 1 := rfl
      rw [hpc, hp1, hp2] at hsum
      rw [h.count]
      omega
    · intro e he
      have : st.fatal = some e := he
      rw [hfat] at this
      cases this
    · intro hnf
      exact absurd (show Function.update st.pc i (Pc.sendFailed err) i = Pc.sendFailed err
        from Function.update_same _ _ _) (hnf i err)
  · -- a Send that succeeds
    rw [heq]
    have hlt : slot i < st.pool.length := by
      by_contra hge
      rw [List.getElem?_eq_none (by omega)] at hw
      cases hw
    have hi128 : i < 128 := by
      by_contra hge
      have := h.unspawned i (by have := h.spawnedLe; omega)
      rw [hpc] at this
      cases this
    refine ⟨by simp [h.len], ?_, h.spawnedLe, h.unspawned, ?_, ?_, h.count, h.fatalFrom, ?_⟩
    · intro k w2 hk
      rcases FanOut.set_lookup _ _ _ _ _ hk with ⟨_, rfl⟩ | ⟨_, hold⟩
      · rfl
      · exact h.free k w2 hold
    · intro x
      show Function.update st.j i (st.j i + 1) x ≤ 10000
      by_cases hx : x = i
      · rw [hx, Function.update_same]; omega
      · rw [Function.update_noteq hx]; exact h.bound x
    · intro x hx
      have hx2 : st.pc x = Pc.returned := hx
      have hne : x ≠ i := by
        intro hxi
        rw [hxi, hpc] at hx2
        cases hx2
      show Function.update st.j i (st.j i + 1) x = 10000
      rw [Function.update_noteq hne]
      exact h.full x hx2
    · intro hnf k w2 hk
      have hnf0 : st.noFailure := hnf
      show w2.cs.2 = List.replicate
        (FanOut.sendsOn slot (Function.update st.j i (st.j i + 1)) k) (Call.send helloMsg)
      rw [FanOut.sendsOn_update]
      rcases FanOut.set_lookup _ _ _ _ _ hk with ⟨hki, rfl⟩ | ⟨hki, hold⟩
      · have hlog := h.logs hnf0 (slot i) w hw
        rw [if_pos ⟨hi128, hki⟩, List.replicate_succ', ← hki]
        show w.cs.2 ++ [Call.send helloMsg] = _
        rw [hlog]
      · have hneg : ¬ (i < 128 ∧ slot i = k) := fun hc => hki hc.2
        rw [if_neg hneg, Nat.add_zero]
        exact h.logs hnf0 k w2 hold
  · -- the return from peerTask and cfg.wg.Done()
    rw [heq]
    have hilt : i < st.spawned := by
      by_contra hge
      have := h.unspawned i (by omega)
      rw [hpc] at this
      cases this
    refine ⟨h.len, h.free, h.spawnedLe, ?_, h.bound, ?_, ?_, ?_, ?_⟩
    · intro x hx
      have hx1 : st.spawned ≤ x := hx
      have hne : x ≠ i := by omega
      show Function.update st.pc i Pc.returned x = Pc.notStarted
      rw [Function.update_noteq hne]
      exact h.unspawned x hx1
    · intro x hx
      have hx2 : Function.update st.pc i Pc.returned x = Pc.returned := hx
      by_cases hne : x = i
      · rw [hne]
        show st.j i = 10000
        have := h.bound i
        omega
      · rw [Function.update_noteq hne] at hx2
        exact h.full x hx2
    · show st.wg - 1 = ((∑ x ∈ Finset.range st.spawned,
          (Function.update st.pc i Pc.returned x).pending : Nat) : Int)
      have hsum := Pc.sum_pending_update st.pc st.spawned i Pc.returned hilt
      have hp1 : Pc.inLoop.pending = 1 := rfl
      have hp2 : Pc.returned.pending = 0 := rfl
      rw [hpc, hp1, hp2] at hsum
      rw [h.count]
      omega
    · intro e he
      have : st.fatal = some e := he
      rw [hfat] at this
      cases this
    · intro hnf k w hk
      apply h.logs _ k w hk
      intro x e hx
      by_cases hne : x = i
      · rw [hne, hpc] at hx; cases hx
      · apply hnf x e
        show Function.update st.pc i Pc.returned x = Pc.sendFailed e
        rw [Function.update_noteq hne]
        exact hx

theorem FanOut.fanInv_run {σ : Type} (S : ChatStream σ) (slot : Nat → Nat) (L : Nat)
    (sched : List FanEvent) :
    ∀ st : FanOut σ, FanOut.Inv slot L st → FanOut.Inv slot L (FanOut.run S slot sched st) := by
  induction sched with
  | nil => intro st h; exact h
  | cons ev sched ih => intro st h; exact ih _ (FanOut.fanInv_step S slot L st ev h)

theorem FanOut.fanInv_start {σ : Type} (slot : Nat → Nat) (pool : List (serialStream σ))
    (hfree : ∀ w ∈ pool, w.lock = false) :
    FanOut.Inv slot pool.length (FanOut.start pool) := by
  refine ⟨by simp [FanOut.start], ?_, Nat.zero_le _, fun _ _ => rfl, fun _ => Nat.zero_le _,
    ?_, by simp [FanOut.start], ?_, ?_⟩
  · intro k w hk
    simp only [FanOut.start, List.getElem?_map, Option.map_eq_some'] at hk
    obtain ⟨w0, hw0, rfl⟩ := hk
    exact hfree w0 (List.getElem?_mem hw0)
  · intro i hi
    cases hi
  · intro e he
    cases he
  · intro _ k w hk
    simp only [FanOut.start, List.getElem?_map, Option.map_eq_some'] at hk
    obtain ⟨w0, hw0, rfl⟩ := hk
    simp [FanOut.sendsOn, FanOut.start]

theorem Pc.pending_eq_zero (p : Pc) : p.pending = 0 ↔ p = Pc.returned := by
  cases p <;> simp [Pc.pending]

/-- What the return of `cfg.wg.Wait()` after the spawning loop means: all 128
goroutines have returned from `peerTask`, each with its counter at 10000, no `Send` has
failed and the process is alive. -/
theorem FanOut.of_waitReturns {σ : Type} (slot : Nat → Nat) (L : Nat) (st : FanOut σ)
    (hinv : FanOut.Inv slot L st) (hwait : st.waitReturns = true) :
    st.spawned = 128 ∧ st.wg = 0 ∧ (∀ i, i < 128 → st.pc i = Pc.returned ∧ st.j i = 10000) ∧
      st.noFailure ∧ st.fatal = none := by
  simp only [FanOut.waitReturns, Bool.and_eq_true, Bool.not_eq_true', decide_eq_false_iff_not,
    decide_eq_true_eq] at hwait
  obtain ⟨hsp, hwg⟩ := hwait
  have hsp2 : st.spawned = 128 := by
    have := hinv.spawnedLe
    omega
  have hsum : ∑ i ∈ Finset.range st.spawned, (st.pc i).pending = 0 := by
    have := hinv.count
    rw [hwg] at this
    exact_mod_cast this.symm
  have hret : ∀ i, i < 128 → st.pc i = Pc.returned := by
    intro i hi
    have := (Finset.sum_eq_zero_iff.mp hsum) i (Finset.mem_range.mpr (by omega))
    exact (Pc.pending_eq_zero _).mp this
  have hnf : st.noFailure := by
    intro i e hie
    by_cases hi : i < 128
    · rw [hret i hi] at hie; cases hie
    · rw [hinv.unspawned i (by omega)] at hie; cases hie
  refine ⟨hsp2, hwg, fun i hi => ⟨hret i hi, hinv.full i (hret i hi)⟩, hnf, ?_⟩
  cases hf : st.fatal with
  | none => rfl
  | some e =>
    obtain ⟨i, hi⟩ := hinv.fatalFrom e hf
    exact absurd hi (hnf i e)

/-- Once `cfg.wg.Wait()` can return, no event changes the fan-out. -/
theorem FanOut.step_of_waitReturns {σ : Type} (S : ChatStream σ) (slot : Nat → Nat)
    (L : Nat) (st : FanOut σ) (ev : FanEvent) (hinv : FanOut.Inv slot L st)
    (hwait : st.waitReturns = true) : FanOut.step S slot st ev = st := by
  obtain ⟨hsp, _, hret, hnf, _⟩ := FanOut.of_waitReturns slot L st hinv hwait
  have hin : ∀ i, st.pc i ≠ Pc.inLoop := by
    intro i hi
    by_cases h128 : i < 128
    · rw [(hret i h128).1] at hi; cases hi
    · rw [hinv.unspawned i (by omega)] at hi; cases hi
  rcases FanOut.step_cases S slot st ev with heq | ⟨_, _, hs, _⟩ |
    ⟨i, err, _, _, hpc, _⟩ | ⟨i, w, err, _, _, hpc, _⟩ |
    ⟨i, w, _, _, hpc, _⟩ | ⟨i, _, _, hpc, _⟩
  · exact heq
  · omega
  · exact absurd hpc (hnf i err)
  · exact absurd hpc (hin i)
  · exact absurd hpc (hin i)
  · exact absurd hpc (hin i)

/-- When `cfg.wg.Wait()` returns, 10000 `Send`s have returned without error for each
goroutine of the index `k`. -/
theorem FanOut.sendsOn_of_waitReturns {σ : Type} (slot : Nat → Nat) (L : Nat)
    (st : FanOut σ) (hinv : FanOut.Inv slot L st) (hwait : st.waitReturns = true) (k : Nat) :
    FanOut.sendsOn slot st.j k = (FanOut.workersOf slot k).card * 10000 := by
  obtain ⟨_, _, hret, _, _⟩ := FanOut.of_waitReturns slot L st hinv hwait
  unfold FanOut.sendsOn
  apply Finset.sum_const_nat
  intro x hx
  simp only [FanOut.workersOf, Finset.mem_filter, Finset.mem_range] at hx
  exact (hret x hx.1).2

/-- When `cfg.wg.Wait()` returns, the calls recorded on the stream of index `k` are
10000 `Send`s of the hello message for each goroutine of that index. -/
theorem FanOut.log_of_waitReturns {σ : Type} (slot : Nat → Nat) (L : Nat) (st : FanOut σ)
    (hinv : FanOut.Inv slot L st) (hwait : st.waitReturns = true) (k : Nat)
    (w : serialStream (σ × List Call)) (hw : st.pool[k]? = some w) :
    w.cs.2 =
      List.replicate ((FanOut.workersOf slot k).card * 10000) (Call.send helloMsg) := by
  obtain ⟨_, _, _, hnf, _⟩ := FanOut.of_waitReturns slot L st hinv hwait
  rw [hinv.logs hnf k w hw, FanOut.sendsOn_of_waitReturns slot L st hinv hwait k]

set_option maxRecDepth 100000 in
theorem FanOut.workersOf_mod32 : ∀ k, k < 32 →
    (FanOut.workersOf (fun i => i % 32) k).card = 4 := by
  decide

theorem FanOut.workersOf_const :
    (FanOut.workersOf (fun _ => 0) 0).card = 128 := by
  simp [FanOut.workersOf]

theorem FanOut.run_append {σ : Type} (S : ChatStream σ) (slot : Nat → Nat)
    (a b : List FanEvent) (st : FanOut σ) :
    FanOut.run S slot (a ++ b) st = FanOut.run S slot b (FanOut.run S slot a st) := by
  simp [FanOut.run, List.foldl_append]

/-- The spawning loop alone: after `n` iterations the first `n` goroutines are at their
loop test and nothing else has changed. -/
theorem FanOut.run_spawns {σ : Type} (S : ChatStream σ) (slot : Nat → Nat)
    (pool : List (serialStream σ)) (n : Nat) (hn : n ≤ 128) :
    (FanOut.run S slot (List.replicate n FanEvent.spawn) (FanOut.start pool)).spawned = n ∧
      (FanOut.run S slot (List.replicate n FanEvent.spawn) (FanOut.start pool)).fatal = none ∧
      (∀ x, (FanOut.run S slot (List.replicate n FanEvent.spawn) (FanOut.start pool)).pc x =
        if x < n then Pc.inLoop else Pc.notStarted) ∧
      ∀ x, (FanOut.run S slot (List.replicate n FanEvent.spawn) (FanOut.start pool)).j x = 0 := by
  induction n with
  | zero => exact ⟨rfl, rfl, fun x => by rw [if_neg (Nat.not_lt_zero x)]; rfl, fun _ => rfl⟩
  | succ n ih =>
    obtain ⟨hs, hf, hpc, hj⟩ := ih (by omega)
    rw [List.replicate_succ', FanOut.run_append]
    generalize FanOut.run S slot (List.replicate n FanEvent.spawn) (FanOut.start pool) = st
      at hs hf hpc hj
    have hstep : FanOut.run S slot [FanEvent.spawn] st =
        { st with spawned := st.spawned + 1,
                  pc := Function.update st.pc st.spawned Pc.inLoop,
                  wg := st.wg + 1 } := by
      have hlt : st.spawned < 128 := by omega
      simp [FanOut.run, FanOut.step, hf, hlt]
    rw [hstep]
    refine ⟨by show st.spawned + 1 = n + 1; rw [hs], hf, ?_, hj⟩
    intro x
    show Function.update st.pc st.spawned Pc.inLoop x = _
    rw [hs]
    by_cases hx : x = n
    · rw [hx, Function.update_same, if_pos (Nat.lt_succ_self n)]
    · rw [Function.update_noteq hx, hpc x]
      by_cases hlt : x < n
      · rw [if_pos hlt, if_pos (Nat.lt_succ_of_lt hlt)]
      · rw [if_neg hlt, if_neg (by omega)]

theorem FanOut.step_send_ok {σ : Type} (S : ChatStream σ) (slot : Nat → Nat) (L : Nat)
    (st : FanOut σ) (i : Nat) (hnf : ∀ s m, (S.Send s m).2 = none)
    (hinv : FanOut.Inv slot L st) (hfat : st.fatal = none) (hpc : st.pc i = Pc.inLoop)
    (hslot : slot i < L) (hj : st.j i < 10000) :
    (FanOut.step S slot st (FanEvent.run i)).fatal = none ∧
      (FanOut.step S slot st (FanEvent.run i)).spawned = st.spawned ∧
      (FanOut.step S slot st (FanEvent.run i)).pc = st.pc ∧
      (FanOut.step S slot st (FanEvent.run i)).j = Function.update st.j i (st.j i + 1) := by
  have hlt : slot i < st.pool.length := by rw [hinv.len]; exact hslot
  have hw : st.pool[slot i]? = some (st.pool[slot i]) := List.getElem?_eq_getElem hlt
  have hl := hinv.free _ _ hw
  have heq : FanOut.step S slot st (FanEvent.run i) =
      { st with
        pool := st.pool.set (slot i)
          { cs := ((S.Send (st.pool[slot i]).cs.1 helloMsg).1,
                   (st.pool[slot i]).cs.2 ++ [Call.send helloMsg]),
            lock := false },
        j := Function.update st.j i (st.j i + 1) } := by
    simp [FanOut.step, hfat, hpc, hj, hw, serialStream.Send, hl, traced, hnf]
  rw [heq]
  exact ⟨hfat, rfl, rfl, rfl⟩

theorem FanOut.step_exit {σ : Type} (S : ChatStream σ) (slot : Nat → Nat)
    (st : FanOut σ) (i : Nat) (hfat : st.fatal = none) (hpc : st.pc i = Pc.inLoop)
    (hj : ¬ st.j i < 10000) :
    (FanOut.step S slot st (FanEvent.run i)).fatal = st.fatal ∧
      (FanOut.step S slot st (FanEvent.run i)).spawned = st.spawned ∧
      (FanOut.step S slot st (FanEvent.run i)).pc = Function.update st.pc i Pc.returned ∧
      (FanOut.step S slot st (FanEvent.run i)).j = st.j := by
  have heq : FanOut.step S slot st (FanEvent.run i) =
      { st with pc := Function.update st.pc i Pc.returned, wg := st.wg - 1 } := by
    simp [FanOut.step, hfat, hpc, hj]
  rw [heq]
  exact ⟨rfl, rfl, rfl, rfl⟩

theorem FanOut.run_single {σ : Type} (S : ChatStream σ) (slot : Nat → Nat) (ev : FanEvent)
    (st : FanOut σ) : FanOut.run S slot [ev] st = FanOut.step S slot st ev := by
  simp only [FanOut.run, List.foldl_cons, List.foldl_nil]

theorem FanOut.run_sends {σ : Type} (S : ChatStream σ) (slot : Nat → Nat) (L : Nat)
    (i : Nat) (hnf : ∀ s m, (S.Send s m).2 = none) (hslot : slot i < L) (n : Nat) :
    ∀ st : FanOut σ, FanOut.Inv slot L st → st.fatal = none → st.pc i = Pc.inLoop →
      st.j i + n ≤ 10000 →
      (FanOut.run S slot (List.replicate n (FanEvent.run i)) st).fatal = none ∧
        (FanOut.run S slot (List.replicate n (FanEvent.run i)) st).spawned = st.spawned ∧
        (FanOut.run S slot (List.replicate n (FanEvent.run i)) st).pc = st.pc ∧
        (FanOut.run S slot (List.replicate n (FanEvent.run i)) st).j =
          Function.update st.j i (st.j i + n) := by
  induction n with
  | zero =>
    intro st _ hfat _ _
    exact ⟨hfat, rfl, rfl, by simp [FanOut.run]⟩
  | succ n ih =>
    intro st hinv hfat hpc hle
    obtain ⟨h1, h2, h3, h4⟩ :=
      FanOut.step_send_ok S slot L st i hnf hinv hfat hpc hslot (by omega)
    have hinv2 := FanOut.fanInv_step S slot L st (FanEvent.run i) hinv
    have hji : (FanOut.step S slot st (FanEvent.run i)).j i = st.j i + 1 := by
      rw [h4, Function.update_same]
    obtain ⟨r1, r2, r3, r4⟩ := ih (FanOut.step S slot st (FanEvent.run i)) hinv2 h1
      (by rw [h3]; exact hpc) (by rw [hji]; omega)
    simp only [FanOut.run, List.replicate_succ, List.foldl_cons] at r1 r2 r3 r4 ⊢
    have hadd : st.j i + 1 + n = st.j i + (n + 1) := by omega
    exact ⟨r1, by rw [r2, h2], by rw [r3, h3],
      by rw [r4, hji, h4, Function.update_idem, hadd]⟩

/-- One goroutine scheduled alone from the start of its loop to its return, on a
stream that never fails: it ends returned with its counter at 10000. -/
theorem FanOut.run_goroutine {σ : Type} (S : ChatStream σ) (slot : Nat → Nat) (L : Nat)
    (i : Nat) (hnf : ∀ s m, (S.Send s m).2 = none) (hslot : slot i < L)
    (st : FanOut σ) (hinv : FanOut.Inv slot L st) (hfat : st.fatal = none)
    (hpc : st.pc i = Pc.inLoop) (hj : st.j i = 0) :
    (FanOut.run S slot ((List.replicate 10000 (FanEvent.run i) ++ [FanEvent.run i])) st).fatal = none ∧
      (FanOut.run S slot ((List.replicate 10000 (FanEvent.run i) ++ [FanEvent.run i])) st).spawned = st.spawned ∧
      (FanOut.run S slot ((List.replicate 10000 (FanEvent.run i) ++ [FanEvent.run i])) st).pc =
        Function.update st.pc i Pc.returned ∧
      (FanOut.run S slot ((List.replicate 10000 (FanEvent.run i) ++ [FanEvent.run i])) st).j =
        Function.update st.j i 10000 := by
  obtain ⟨r1, r2, r3, r4⟩ := FanOut.run_sends S slot L i hnf hslot 10000 st hinv hfat hpc
    (by omega)
  rw [FanOut.run_append]
  generalize FanOut.run S slot (List.replicate 10000 (FanEvent.run i)) st = st2
    at r1 r2 r3 r4
  have hj2 : ¬ st2.j i < 10000 := by
    rw [r4, Function.update_same]
    omega
  obtain ⟨e1, e2, e3, e4⟩ := FanOut.step_exit S slot st2 i r1 (by rw [r3]; exact hpc) hj2
  rw [FanOut.run_single]
  refine ⟨e1.trans r1, e2.trans r2, ?_, ?_⟩
  · rw [e3, r3]
  · rw [e4, r4, hj, Nat.zero_add]

theorem FanOut.oneByOne_succ (m : Nat) :
    FanOut.oneByOne (m + 1) =
      FanOut.oneByOne m ++ (List.replicate 10000 (FanEvent.run m) ++ [FanEvent.run m]) := by
  simp only [FanOut.oneByOne, List.range_succ, List.flatMap_append, List.flatMap_cons,
    List.flatMap_nil, List.append_nil]

/-- The goroutines one after the other, on a stream that never fails: after the first
`m` of them, those have returned with their counters at 10000 and the others are
still at the start of their loops. -/
theorem FanOut.run_oneByOne {σ : Type} (S : ChatStream σ) (slot : Nat → Nat) (L : Nat)
    (hnf : ∀ s m, (S.Send s m).2 = none) (hslot : ∀ i, i < 128 → slot i < L)
    (st : FanOut σ) (hinv : FanOut.Inv slot L st) (hfat : st.fatal = none)
    (hpc : ∀ x, st.pc x = if x < 128 then Pc.inLoop else Pc.notStarted)
    (hj : ∀ x, st.j x = 0) (m : Nat) (hm : m ≤ 128) :
    (FanOut.run S slot (FanOut.oneByOne m) st).fatal = none ∧
      (FanOut.run S slot (FanOut.oneByOne m) st).spawned = st.spawned ∧
      (∀ x, (FanOut.run S slot (FanOut.oneByOne m) st).pc x =
        if x < m then Pc.returned else if x < 128 then Pc.inLoop else Pc.notStarted) ∧
      ∀ x, (FanOut.run S slot (FanOut.oneByOne m) st).j x = if x < m then 10000 else 0 := by
  induction m with
  | zero =>
    refine ⟨hfat, rfl, fun x => ?_, fun x => ?_⟩
    · rw [if_neg (Nat.not_lt_zero x)]; exact hpc x
    · rw [if_neg (Nat.not_lt_zero x)]; exact hj x
  | succ m ih =>
    obtain ⟨r1, r2, r3, r4⟩ := ih (by omega)
    have hinv2 := FanOut.fanInv_run S slot L (FanOut.oneByOne m) st hinv
    rw [FanOut.oneByOne_succ, FanOut.run_append]
    generalize FanOut.run S slot (FanOut.oneByOne m) st = st2 at r1 r2 r3 r4 hinv2
    have hpcm : st2.pc m = Pc.inLoop := by
      rw [r3 m, if_neg (Nat.lt_irrefl m), if_pos (by omega)]
    have hjm : st2.j m = 0 := by rw [r4 m, if_neg (Nat.lt_irrefl m)]
    obtain ⟨g1, g2, g3, g4⟩ := FanOut.run_goroutine S slot L m hnf (hslot m (by omega))
      st2 hinv2 r1 hpcm hjm
    refine ⟨g1, by rw [g2, r2], ?_, ?_⟩
    · intro x
      rw [g3]
      by_cases hx : x = m
      · rw [hx, Function.update_same, if_pos (Nat.lt_succ_self m)]
      · rw [Function.update_noteq hx, r3 x]
        by_cases hlt : x < m
        · rw [if_pos hlt, if_pos (Nat.lt_succ_of_lt hlt)]
        · have hn : ¬ x < m + 1 := by omega
          rw [if_neg hlt, if_neg hn]
    · intro x
      rw [g4]
      by_cases hx : x = m
      · rw [hx, Function.update_same, if_pos (Nat.lt_succ_self m)]
      · rw [Function.update_noteq hx, r4 x]
        by_cases hlt : x < m
        · rw [if_pos hlt, if_pos (Nat.lt_succ_of_lt hlt)]
        · have hn : ¬ x < m + 1 := by omega
          rw [if_neg hlt, if_neg hn]

/-- Under the whole schedule, on a stream that never fails, `cfg.wg.Wait()` returns. -/
theorem FanOut.fullSchedule_waitReturns {σ : Type} (S : ChatStream σ) (slot : Nat → Nat)
    (pool : List (serialStream σ)) (hnf : ∀ s m, (S.Send s m).2 = none)
    (hfree : ∀ w ∈ pool, w.lock = false) (hslot : ∀ i, i < 128 → slot i < pool.length) :
    (FanOut.run S slot FanOut.fullSchedule (FanOut.start pool)).waitReturns = true := by
  have hinv0 := FanOut.fanInv_start slot pool hfree
  obtain ⟨s1, s2, s3, s4⟩ := FanOut.run_spawns S slot pool 128 (le_refl _)
  have hinv1 := FanOut.fanInv_run S slot pool.length (List.replicate 128 FanEvent.spawn) _ hinv0
  obtain ⟨r1, r2, r3, r4⟩ := FanOut.run_oneByOne S slot pool.length hnf hslot _ hinv1 s2 s3 s4
    128 (le_refl _)
  have hinv2 := FanOut.fanInv_run S slot pool.length (FanOut.oneByOne 128) _ hinv1
  rw [FanOut.fullSchedule, FanOut.run_append]
  generalize FanOut.run S slot (FanOut.oneByOne 128)
    (FanOut.run S slot (List.replicate 128 FanEvent.spawn) (FanOut.start pool)) = st
    at r1 r2 r3 r4 hinv2
  have hsp : st.spawned = 128 := by rw [r2, s1]
  have hsum : ∑ i ∈ Finset.range st.spawned, (st.pc i).pending = 0 := by
    apply Finset.sum_eq_zero
    intro x hx
    have hx2 : x < 128 := by rw [hsp] at hx; exact Finset.mem_range.mp hx
    rw [r3 x, if_pos hx2]
    rfl
  have hwg : st.wg = 0 := by rw [hinv2.count, hsum]; rfl
  simp [FanOut.waitReturns, hsp, hwg]

/-! ## The consumer step and the runs of Normal -/

/-- The outcomes of one consumer step on a wrapper whose mutex is free. -/
theorem chaincodeStep_cases (sent : Nat) (ended stopped : Bool) (c : Consumer)
    (hl : c.stream.lock = false) :
    chaincodeStep sent ended stopped c = c ∨
      (c.done = false ∧ stopped = true ∧
        chaincodeStep sent ended stopped c =
          { stream := { cs := c.stream.cs, lock := false }, done := true,
            err := some ⟨"transport is closing"⟩ }) ∨
      (c.done = false ∧ stopped = false ∧ c.stream.cs < sent ∧
        chaincodeStep sent ended stopped c =
          { c with stream := { cs := c.stream.cs + 1, lock := false } }) ∨
      (c.done = false ∧ stopped = false ∧ ¬ c.stream.cs < sent ∧ ended = true ∧
        chaincodeStep sent ended stopped c =
          { stream := { cs := c.stream.cs, lock := false }, done := true,
            err := some ⟨"EOF"⟩ }) := by
  cases hd : c.done with
  | true => left; simp [chaincodeStep, hd]
  | false =>
    cases hs : stopped with
    | true =>
      right; left
      refine ⟨rfl, rfl, ?_⟩
      simp [chaincodeStep, hd, clientReady, serialStream.Recv, hl, clientEnd]
    | false =>
      by_cases hlt : c.stream.cs < sent
      · right; right; left
        refine ⟨rfl, rfl, hlt, ?_⟩
        simp [chaincodeStep, hd, clientReady, serialStream.Recv, hl, clientEnd, hlt]
      · cases he : ended with
        | true =>
          right; right; right
          refine ⟨rfl, rfl, hlt, rfl, ?_⟩
          simp [chaincodeStep, hd, clientReady, serialStream.Recv, hl, clientEnd, hlt]
        | false =>
          left
          simp [chaincodeStep, hd, clientReady, hlt]

/-- A step of the fan-out does not lower the number of messages sent on a stream. -/
theorem FanOut.sendsOn_step_le {σ : Type} (S : ChatStream σ) (slot : Nat → Nat)
    (st : FanOut σ) (ev : FanEvent) (k : Nat) :
    FanOut.sendsOn slot st.j k ≤ FanOut.sendsOn slot (FanOut.step S slot st ev).j k := by
  rcases FanOut.step_cases S slot st ev with heq | ⟨_, _, _, heq⟩ |
    ⟨i, err, _, _, _, heq⟩ | ⟨i, w, err, _, _, _, _, _, _, _, heq⟩ |
    ⟨i, w, _, _, _, _, _, _, _, heq⟩ | ⟨i, _, _, _, _, heq⟩
  · rw [heq]
  · rw [heq]
  · rw [heq]
  · rw [heq]
  · rw [heq]
    show _ ≤ FanOut.sendsOn slot (Function.update st.j i (st.j i + 1)) k
    rw [FanOut.sendsOn_update]
    exact Nat.le_add_right _ _
  · rw [heq]

theorem Normal.topoInv_start {σ : Type} (stream : σ) :
    Normal.Inv (TopoRun.start [({ cs := stream, lock := false } : serialStream σ)]) := by
  refine ⟨FanOut.fanInv_start (fun _ => 0) [{ cs := stream, lock := false }]
    (fun w hw => by rw [List.mem_singleton] at hw; rw [hw]), ?_, rfl, Nat.zero_le _, ?_, ?_, ?_⟩
  · intro h; cases h
  · intro h; cases h
  · intro h; cases h
  · intro h; cases h

theorem Normal.topoInv_step {σ : Type} (S : ChatStream σ) (st : TopoRun σ) (ev : TopoEvent)
    (h : Normal.Inv st) : Normal.Inv (Normal.step S st ev) := by
  cases hf : st.fan.fatal with
  | some e =>
    have heq : Normal.step S st ev = st := by simp [Normal.step, hf]
    rw [heq]; exact h
  | none =>
    cases ev with
    | fan e =>
      have heq : Normal.step S st (TopoEvent.fan e) =
          { st with fan := FanOut.step S (fun _ => 0) st.fan e } := by
        simp [Normal.step, hf]
      rw [heq]
      refine ⟨FanOut.fanInv_step S _ 1 st.fan e h.fanInv, ?_, h.cfree, ?_, h.cdone, h.adone,
        h.sdone⟩
      · intro hd
        have hw := h.hdone hd
        show (FanOut.step S (fun _ => 0) st.fan e).waitReturns = true
        rw [FanOut.step_of_waitReturns S _ 1 st.fan e h.fanInv hw]
        exact hw
      · exact le_trans h.recvLe (FanOut.sendsOn_step_le S _ st.fan e 0)
    | handlerReturn k =>
      cases hw : st.fan.waitReturns with
      | false =>
        have heq : Normal.step S st (TopoEvent.handlerReturn k) = st := by
          simp [Normal.step, hf, hw]
        rw [heq]; exact h
      | true =>
        have heq : Normal.step S st (TopoEvent.handlerReturn k) =
            { st with handlerDone := Function.update st.handlerDone 0 true } := by
          simp [Normal.step, hf, hw]
        rw [heq]
        refine ⟨h.fanInv, fun _ => hw, h.cfree, h.recvLe, ?_, h.adone, h.sdone⟩
        intro hd
        obtain ⟨_, h2, h3⟩ := h.cdone hd
        exact ⟨by simp, h2, h3⟩
    | closeAllDone =>
      cases hd : (st.consumers 0).done with
      | false =>
        have heq : Normal.step S st TopoEvent.closeAllDone = st := by
          simp [Normal.step, hf, hd]
        rw [heq]; exact h
      | true =>
        have heq : Normal.step S st TopoEvent.closeAllDone = { st with allDone := true } := by
          simp [Normal.step, hf, hd]
        rw [heq]
        exact ⟨h.fanInv, h.hdone, h.cfree, h.recvLe, h.cdone, fun _ => hd, fun _ => rfl⟩
    | stop =>
      cases ha : st.allDone with
      | false =>
        have heq : Normal.step S st TopoEvent.stop = st := by
          simp [Normal.step, hf, ha]
        rw [heq]; exact h
      | true =>
        have heq : Normal.step S st TopoEvent.stop = { st with stopped := true } := by
          simp [Normal.step, hf, ha]
        rw [heq]
        exact ⟨h.fanInv, h.hdone, h.cfree, h.recvLe, h.cdone, h.adone, fun _ => ha⟩
    | recv k =>
      have heq : Normal.step S st (TopoEvent.recv k) =
          { st with
            consumers := Function.update st.consumers 0
              (chaincodeStep (FanOut.sendsOn (fun _ => 0) st.fan.j 0) (st.handlerDone 0)
                st.stopped (st.consumers 0)) } := by
        simp [Normal.step, hf]
      rw [heq]
      rcases chaincodeStep_cases (FanOut.sendsOn (fun _ => 0) st.fan.j 0) (st.handlerDone 0)
        st.stopped (st.consumers 0) h.cfree with hc | ⟨hd, hs, _⟩ | ⟨hd, hs, hlt, hc⟩ |
        ⟨hd, hs, hlt, he, hc⟩
      · rw [hc, Function.update_eq_self]
        exact h
      · have := h.adone (h.sdone hs)
        rw [hd] at this
        cases this
      · rw [hc]
        refine ⟨h.fanInv, h.hdone, ?_, ?_, ?_, ?_, h.sdone⟩
        · simp only [Function.update_same]
        · simp only [Function.update_same]
          exact hlt
        · intro hd2
          simp only [Function.update_same, hd] at hd2
          cases hd2
        · intro ha
          have := h.adone ha
          rw [hd] at this
          cases this
      · rw [hc]
        have hw := h.hdone he
        have hsent := FanOut.sendsOn_of_waitReturns (fun _ => 0) 1 st.fan h.fanInv hw 0
        rw [FanOut.workersOf_const] at hsent
        have hle := h.recvLe
        refine ⟨h.fanInv, h.hdone, ?_, ?_, ?_, ?_, h.sdone⟩
        · simp only [Function.update_same]
        · simp only [Function.update_same]
          exact hle
        · intro _
          refine ⟨he, ?_, ?_⟩
          · simp only [Function.update_same]
            omega
          · simp only [Function.update_same]
        · intro _
          simp only [Function.update_same]

theorem Normal.topoInv_run {σ : Type} (S : ChatStream σ) (stream : σ) (sched : List TopoEvent) :
    Normal.Inv (Normal.run S stream sched) := by
  have hgen : ∀ (l : List TopoEvent) (st : TopoRun σ), Normal.Inv st →
      Normal.Inv (Normal.runFrom S st l) := by
    intro l
    induction l with
    | nil => intro st h; exact h
    | cons ev l ih => intro st h; exact ih _ (Normal.topoInv_step S st ev h)
  exact hgen sched _ (Normal.topoInv_start stream)

/-- What the return of the consumer of Normal means, under every schedule: the
handler had returned after `cfg.wg.Wait()`, no `Send` failed and the process is alive,
the stream carries exactly 1280000 `Send`s of the hello message, and the consumer
received 1280000 messages before the `Recv` that reported the end of the stream. -/
theorem Normal.of_consumerDone {σ : Type} (S : ChatStream σ) (stream : σ)
    (sched : List TopoEvent)
    (hdone : ((Normal.run S stream sched).consumers 0).done = true) :
    (Normal.run S stream sched).fan.fatal = none ∧
      (Normal.run S stream sched).handlerDone 0 = true ∧
      (Normal.run S stream sched).fan.waitReturns = true ∧
      (∃ w, (Normal.run S stream sched).fan.pool = [w] ∧
        w.cs.2 = List.replicate 1280000 (Call.send helloMsg)) ∧
      FanOut.sendsOn (fun _ => 0) (Normal.run S stream sched).fan.j 0 = 1280000 ∧
      ((Normal.run S stream sched).consumers 0).stream.cs = 1280000 ∧
      ((Normal.run S stream sched).consumers 0).err = some ⟨"EOF"⟩ := by
  have hinv := Normal.topoInv_run S stream sched
  obtain ⟨hh, hcs, herr⟩ := hinv.cdone hdone
  have hw := hinv.hdone hh
  obtain ⟨_, _, _, _, hfat⟩ := FanOut.of_waitReturns _ 1 _ hinv.fanInv hw
  have hsent := FanOut.sendsOn_of_waitReturns (fun _ => 0) 1 _ hinv.fanInv hw 0
  rw [FanOut.workersOf_const] at hsent
  obtain ⟨w, hpool⟩ := List.length_eq_one.mp hinv.fanInv.len
  have h0 : (Normal.run S stream sched).fan.pool[0]? = some w := by rw [hpool]; rfl
  have hlog := FanOut.log_of_waitReturns (fun _ => 0) 1 _ hinv.fanInv hw 0 w h0
  rw [FanOut.workersOf_const] at hlog
  exact ⟨hfat, hh, hw, ⟨w, hpool, hlog⟩, hsent, hcs, herr⟩

/-! ## Whole runs under a concrete schedule -/

theorem Consumer.eta (c : Consumer) (hl : c.stream.lock = false) :
    ({ c with stream := { cs := c.stream.cs, lock := false } } : Consumer) = c := by
  cases c with
  | mk stream done err =>
    cases stream with
    | mk cs lock =>
      have : lock = false := hl
      subst this
      rfl

theorem chaincodeStep_recv (sent : Nat) (ended : Bool) (c : Consumer)
    (hd : c.done = false) (hl : c.stream.lock = false) (hlt : c.stream.cs < sent) :
    chaincodeStep sent ended false c =
      { c with stream := { cs := c.stream.cs + 1, lock := false } } := by
  simp [chaincodeStep, hd, clientReady, serialStream.Recv, hl, clientEnd, hlt]

theorem chaincodeStep_eof (sent : Nat) (c : Consumer)
    (hd : c.done = false) (hl : c.stream.lock = false) (hlt : ¬ c.stream.cs < sent) :
    chaincodeStep sent true false c =
      { stream := { cs := c.stream.cs, lock := false }, done := true, err := some ⟨"EOF"⟩ } := by
  simp [chaincodeStep, hd, clientReady, serialStream.Recv, hl, clientEnd, hlt]

theorem chaincodeStep_stopped (sent : Nat) (ended : Bool) (c : Consumer)
    (hd : c.done = false) (hl : c.stream.lock = false) :
    chaincodeStep sent ended true c =
      { stream := { cs := c.stream.cs, lock := false }, done := true,
        err := some ⟨"transport is closing"⟩ } := by
  simp [chaincodeStep, hd, clientReady, serialStream.Recv, hl, clientEnd]

/-- A consumer that finds a message at each of `n` iterations has received `n` more
messages and has not returned. -/
theorem chaincodeStep_iterate (sent : Nat) (ended : Bool) (n : Nat) :
    ∀ c : Consumer, c.done = false → c.stream.lock = false → c.stream.cs + n ≤ sent →
      (chaincodeStep sent ended false)^[n] c =
        { c with stream := { cs := c.stream.cs + n, lock := false } } := by
  induction n with
  | zero =>
    intro c _ hl _
    exact (Consumer.eta c hl).symm
  | succ n ih =>
    intro c hd hl hle
    rw [Function.iterate_succ_apply, chaincodeStep_recv sent ended c hd hl (by omega)]
    have h2 := ih { c with stream := { cs := c.stream.cs + 1, lock := false } } hd rfl
      (by show c.stream.cs + 1 + n ≤ sent; omega)
    rw [h2]
    have hadd : c.stream.cs + 1 + n = c.stream.cs + (n + 1) := by omega
    show ({ c with stream := { cs := c.stream.cs + 1 + n, lock := false } } : Consumer) = _
    rw [hadd]

theorem FanOut.step_fatal {σ : Type} (S : ChatStream σ) (slot : Nat → Nat) (st : FanOut σ)
    (ev : FanEvent) (e : GoError) (h : st.fatal = some e) : FanOut.step S slot st ev = st := by
  cases ev <;> simp [FanOut.step, h]

theorem Normal.runFrom_append {σ : Type} (S : ChatStream σ) (st : TopoRun σ)
    (a b : List TopoEvent) :
    Normal.runFrom S st (a ++ b) = Normal.runFrom S (Normal.runFrom S st a) b := by
  simp only [Normal.runFrom, List.foldl_append]

theorem Normal.runFrom_cons {σ : Type} (S : ChatStream σ) (st : TopoRun σ)
    (ev : TopoEvent) (l : List TopoEvent) :
    Normal.runFrom S st (ev :: l) = Normal.runFrom S (Normal.step S st ev) l := by
  simp only [Normal.runFrom, List.foldl_cons]

theorem Normal.runFrom_nil {σ : Type} (S : ChatStream σ) (st : TopoRun σ) :
    Normal.runFrom S st [] = st := rfl

theorem Normal.step_fan {σ : Type} (S : ChatStream σ) (st : TopoRun σ) (e : FanEvent) :
    Normal.step S st (TopoEvent.fan e) =
      { st with fan := FanOut.step S (fun _ => 0) st.fan e } := by
  cases hf : st.fan.fatal with
  | none => simp [Normal.step, hf]
  | some err =>
    rw [FanOut.step_fatal S _ st.fan e err hf]
    simp [Normal.step, hf]

theorem Normal.runFrom_fan {σ : Type} (S : ChatStream σ) (evs : List FanEvent) :
    ∀ st : TopoRun σ, Normal.runFrom S st (evs.map TopoEvent.fan) =
      { st with fan := FanOut.run S (fun _ => 0) evs st.fan } := by
  induction evs with
  | nil => intro st; rfl
  | cons e evs ih =>
    intro st
    rw [List.map_cons, Normal.runFrom_cons, Normal.step_fan, ih]
    rfl

theorem Normal.runFrom_recvs {σ : Type} (S : ChatStream σ) (n : Nat) :
    ∀ st : TopoRun σ, st.fan.fatal = none →
      Normal.runFrom S st (List.replicate n (TopoEvent.recv 0)) =
        { st with
          consumers := Function.update st.consumers 0
            ((chaincodeStep (FanOut.sendsOn (fun _ => 0) st.fan.j 0) (st.handlerDone 0)
              st.stopped)^[n] (st.consumers 0)) } := by
  induction n with
  | zero =>
    intro st _
    simp [Normal.runFrom]
  | succ n ih =>
    intro st hf
    have hstep : Normal.step S st (TopoEvent.recv 0) =
        { st with
          consumers := Function.update st.consumers 0
            (chaincodeStep (FanOut.sendsOn (fun _ => 0) st.fan.j 0) (st.handlerDone 0)
              st.stopped (st.consumers 0)) } := by
      simp [Normal.step, hf]
    have h2 := ih { st with
      consumers := Function.update st.consumers 0
        (chaincodeStep (FanOut.sendsOn (fun _ => 0) st.fan.j 0) (st.handlerDone 0)
          st.stopped (st.consumers 0)) } hf
    rw [List.replicate_succ, Normal.runFrom_cons, hstep, h2]
    simp only [Function.update_same, Function.update_idem, Function.iterate_succ_apply]

/-- The rest of a run of Normal once `cfg.wg.Wait()` can return in the handler: the
handler returns, the consumer receives the 1280000 messages and then the end of the
stream, `cfg.allDone` is closed and the server stopped. -/
theorem Normal.rest_of_run {σ : Type} (S : ChatStream σ) (F : FanOut σ)
    (hinv : FanOut.Inv (fun _ => 0) 1 F) (hw : F.waitReturns = true) :
    ((Normal.runFrom S
        { fan := F, handlerDone := fun _ => false, allDone := false, stopped := false,
          consumers := fun _ => Consumer.start }
        (TopoEvent.handlerReturn 0 ::
          (List.replicate 1280000 (TopoEvent.recv 0) ++
            [TopoEvent.recv 0, TopoEvent.closeAllDone, TopoEvent.stop]))).consumers 0).done =
      true := by
  obtain ⟨_, _, _, _, hfat⟩ := FanOut.of_waitReturns _ 1 F hinv hw
  have hsent := FanOut.sendsOn_of_waitReturns (fun _ => 0) 1 F hinv hw 0
  rw [FanOut.workersOf_const] at hsent
  have hsent2 : FanOut.sendsOn (fun _ => 0) F.j 0 = 1280000 := hsent
  have h1 : Normal.step S
      { fan := F, handlerDone := fun _ => false, allDone := false, stopped := false,
        consumers := fun _ => Consumer.start } (TopoEvent.handlerReturn 0) =
      { fan := F, handlerDone := Function.update (fun _ => false) 0 true, allDone := false,
        stopped := false, consumers := fun _ => Consumer.start } := by
    simp [Normal.step, hfat, hw]
  have hit := chaincodeStep_iterate 1280000 true 1280000 Consumer.start rfl rfl (Nat.le_refl _)
  have h2 : Normal.runFrom S
      { fan := F, handlerDone := Function.update (fun _ => false) 0 true, allDone := false,
        stopped := false, consumers := fun _ => Consumer.start }
      (List.replicate 1280000 (TopoEvent.recv 0)) =
      { fan := F, handlerDone := Function.update (fun _ => false) 0 true, allDone := false,
        stopped := false,
        consumers := Function.update (fun _ => Consumer.start) 0
          { stream := { cs := 1280000, lock := false }, done := false, err := none } } := by
    rw [Normal.runFrom_recvs S 1280000 _ hfat]
    simp only [hsent2, Function.update_same, hit]
    rfl
  have h3 : Normal.step S
      { fan := F, handlerDone := Function.update (fun _ => false) 0 true, allDone := false,
        stopped := false,
        consumers := Function.update (fun _ => Consumer.start) 0
          { stream := { cs := 1280000, lock := false }, done := false, err := none } }
      (TopoEvent.recv 0) =
      { fan := F, handlerDone := Function.update (fun _ => false) 0 true, allDone := false,
        stopped := false,
        consumers := Function.update (fun _ => Consumer.start) 0
          { stream := { cs := 1280000, lock := false }, done := true,
            err := some ⟨"EOF"⟩ } } := by
    have he := chaincodeStep_eof 1280000
      { stream := { cs := 1280000, lock := false }, done := false, err := none } rfl rfl
      (Nat.lt_irrefl _)
    simp only [Normal.step, hfat, hsent2, Function.update_same, he, Function.update_idem]
  rw [Normal.runFrom_cons, h1, Normal.runFrom_append, h2, Normal.runFrom_cons, h3]
  simp [Normal.runFrom, Normal.step, hfat]

theorem Normal.runFrom_start_fan {σ : Type} (S : ChatStream σ) (pool : List (serialStream σ))
    (evs : List FanEvent) :
    Normal.runFrom S (TopoRun.start pool) (evs.map TopoEvent.fan) =
      { fan := FanOut.run S (fun _ => 0) evs (FanOut.start pool),
        handlerDone := fun _ => false, allDone := false, stopped := false,
        consumers := fun _ => Consumer.start } := by
  rw [Normal.runFrom_fan]
  rfl

/-- Under the whole schedule of Normal, on a stream that never fails, the consumer
returns. -/
theorem Normal.fullSchedule_done {σ : Type} (S : ChatStream σ) (stream : σ)
    (hnf : ∀ s m, (S.Send s m).2 = none) :
    ((Normal.run S stream Normal.fullSchedule).consumers 0).done = true := by
  have hfree : ∀ w ∈ [({ cs := stream, lock := false } : serialStream σ)], w.lock = false :=
    fun w hw => by rw [List.mem_singleton] at hw; rw [hw]
  have hinv := FanOut.fanInv_run S (fun _ => 0) 1 FanOut.fullSchedule _
    (FanOut.fanInv_start (fun _ => 0) [({ cs := stream, lock := false } : serialStream σ)] hfree)
  have hw := FanOut.fullSchedule_waitReturns S (fun _ => 0)
    [({ cs := stream, lock := false } : serialStream σ)] hnf hfree (fun _ _ => Nat.zero_lt_one)
  have hrest := Normal.rest_of_run S _ hinv hw
  rw [Normal.run, Normal.fullSchedule, Normal.runFrom_append, Normal.runFrom_start_fan]
  exact hrest

/-! ## Runs of Sharding -/

theorem Sharding.shardRun_append {σ : Type} (S : ChatStream σ) (slot : Nat → Nat)
    (st : TopoRun σ) (a b : List TopoEvent) :
    Sharding.runFrom S slot st (a ++ b) =
      Sharding.runFrom S slot (Sharding.runFrom S slot st a) b := by
  simp only [Sharding.runFrom, List.foldl_append]

theorem Sharding.shardRun_cons {σ : Type} (S : ChatStream σ) (slot : Nat → Nat)
    (st : TopoRun σ) (ev : TopoEvent) (l : List TopoEvent) :
    Sharding.runFrom S slot st (ev :: l) =
      Sharding.runFrom S slot (Sharding.step S slot st ev) l := by
  simp only [Sharding.runFrom, List.foldl_cons]

theorem Sharding.shardStep_fan {σ : Type} (S : ChatStream σ) (slot : Nat → Nat) (st : TopoRun σ)
    (e : FanEvent) :
    Sharding.step S slot st (TopoEvent.fan e) =
      { st with fan := FanOut.step S slot st.fan e } := by
  cases hf : st.fan.fatal with
  | none => simp [Sharding.step, hf]
  | some err =>
    rw [FanOut.step_fatal S _ st.fan e err hf]
    simp [Sharding.step, hf]

theorem Sharding.shardRun_fan {σ : Type} (S : ChatStream σ) (slot : Nat → Nat)
    (evs : List FanEvent) :
    ∀ st : TopoRun σ, Sharding.runFrom S slot st (evs.map TopoEvent.fan) =
      { st with fan := FanOut.run S slot evs st.fan } := by
  induction evs with
  | nil => intro st; rfl
  | cons e evs ih =>
    intro st
    rw [List.map_cons, Sharding.shardRun_cons, Sharding.shardStep_fan, ih]
    rfl

theorem Sharding.shardRun_start_fan {σ : Type} (S : ChatStream σ) (slot : Nat → Nat)
    (pool : List (serialStream σ)) (evs : List FanEvent) :
    Sharding.runFrom S slot (TopoRun.start pool) (evs.map TopoEvent.fan) =
      { fan := FanOut.run S slot evs (FanOut.start pool),
        handlerDone := fun _ => false, allDone := false, stopped := false,
        consumers := fun _ => Consumer.start } := by
  rw [Sharding.shardRun_fan]
  rfl

/-- Events of Sharding other than those of the fan-out leave the fan-out as it is. -/
theorem Sharding.shardStep_fanPart {σ : Type} (S : ChatStream σ) (slot : Nat → Nat)
    (st : TopoRun σ) (ev : TopoEvent) :
    (Sharding.step S slot st ev).fan = st.fan ∨
      ∃ e, (Sharding.step S slot st ev).fan = FanOut.step S slot st.fan e := by
  cases ev with
  | fan e => right; exact ⟨e, by rw [Sharding.shardStep_fan]⟩
  | handlerReturn k => left; simp only [Sharding.step]; split <;> [rfl; (split <;> rfl)]
  | closeAllDone => left; simp only [Sharding.step]; split <;> [rfl; (split <;> rfl)]
  | stop => left; simp only [Sharding.step]; split <;> [rfl; (split <;> rfl)]
  | recv k => left; simp only [Sharding.step]; split <;> rfl

/-- The fan-out invariant holds throughout a run of Sharding. -/
theorem Sharding.run_fanInv {σ : Type} (S : ChatStream σ) (pool : List (serialStream σ))
    (hfree : ∀ w ∈ pool, w.lock = false) (sched : List TopoEvent) :
    FanOut.Inv (Sharding.slot pool) pool.length (Sharding.run S pool sched).fan := by
  have hgen : ∀ (l : List TopoEvent) (st : TopoRun σ),
      FanOut.Inv (Sharding.slot pool) pool.length st.fan →
      FanOut.Inv (Sharding.slot pool) pool.length
        (Sharding.runFrom S (Sharding.slot pool) st l).fan := by
    intro l
    induction l with
    | nil => intro st h; exact h
    | cons ev l ih =>
      intro st h
      rw [Sharding.shardRun_cons]
      apply ih
      rcases Sharding.shardStep_fanPart S (Sharding.slot pool) st ev with heq | ⟨e, heq⟩
      · rw [heq]; exact h
      · rw [heq]; exact FanOut.fanInv_step S _ _ st.fan e h
  exact hgen sched _ (FanOut.fanInv_start (Sharding.slot pool) pool hfree)

theorem Sharding.shardRun_recvs {σ : Type} (S : ChatStream σ) (slot : Nat → Nat) (k n : Nat) :
    ∀ st : TopoRun σ, st.fan.fatal = none →
      Sharding.runFrom S slot st (List.replicate n (TopoEvent.recv k)) =
        { st with
          consumers := Function.update st.consumers k
            ((chaincodeStep (FanOut.sendsOn slot st.fan.j k) (st.handlerDone k)
              st.stopped)^[n] (st.consumers k)) } := by
  induction n with
  | zero =>
    intro st _
    simp [Sharding.runFrom]
  | succ n ih =>
    intro st hf
    have hstep : Sharding.step S slot st (TopoEvent.recv k) =
        { st with
          consumers := Function.update st.consumers k
            (chaincodeStep (FanOut.sendsOn slot st.fan.j k) (st.handlerDone k)
              st.stopped (st.consumers k)) } := by
      simp [Sharding.step, hf]
    have h2 := ih { st with
      consumers := Function.update st.consumers k
        (chaincodeStep (FanOut.sendsOn slot st.fan.j k) (st.handlerDone k)
          st.stopped (st.consumers k)) } hf
    rw [List.replicate_succ, Sharding.shardRun_cons, hstep, h2]
    simp only [Function.update_same, Function.update_idem, Function.iterate_succ_apply]

theorem Sharding.quota_le (k : Nat) : Sharding.quota k ≤ 40000 := by
  unfold Sharding.quota
  split <;> omega

theorem Sharding.recvs_succ (m : Nat) :
    Sharding.recvs (m + 1) =
      Sharding.recvs m ++ List.replicate (Sharding.quota m) (TopoEvent.recv m) := by
  simp only [Sharding.recvs, List.range_succ, List.flatMap_append, List.flatMap_cons,
    List.flatMap_nil, List.append_nil]

/-- The consumers of the first `m` streams have each received their quota and none has
returned; nothing else has changed. -/
theorem Sharding.run_recvs {σ : Type} (S : ChatStream σ) (slot : Nat → Nat) (F : FanOut σ)
    (hfat : F.fatal = none) (hsent : ∀ k, k < 32 → FanOut.sendsOn slot F.j k = 40000)
    (m : Nat) (hm : m ≤ 32) :
    Sharding.runFrom S slot
        { fan := F, handlerDone := fun _ => false, allDone := false, stopped := false,
          consumers := fun _ => Consumer.start } (Sharding.recvs m) =
      { fan := F, handlerDone := fun _ => false, allDone := false, stopped := false,
        consumers := fun k =>
          if k < m then
            { stream := { cs := Sharding.quota k, lock := false }, done := false, err := none }
          else Consumer.start } := by
  induction m with
  | zero =>
    show _ = _
    have : (fun k : Nat => if k < 0 then
        ({ stream := { cs := Sharding.quota k, lock := false }, done := false, err := none }
          : Consumer) else Consumer.start) = fun _ => Consumer.start := by
      funext k
      rw [if_neg (Nat.not_lt_zero k)]
    rw [this]
    rfl
  | succ m ih =>
    have hit := chaincodeStep_iterate 40000 false (Sharding.quota m) Consumer.start rfl rfl
      (by show 0 + Sharding.quota m ≤ 40000; have := Sharding.quota_le m; omega)
    rw [Sharding.recvs_succ, Sharding.shardRun_append, ih (by omega),
      Sharding.shardRun_recvs S slot m _ _ hfat]
    simp only [hsent m (by omega), if_neg (Nat.lt_irrefl m), hit]
    congr 1
    funext k
    by_cases hk : k = m
    · rw [hk, Function.update_same, if_pos (Nat.lt_succ_self m)]
      simp [Consumer.start]
    · rw [Function.update_noteq hk]
      by_cases hlt : k < m
      · rw [if_pos hlt, if_pos (Nat.lt_succ_of_lt hlt)]
      · have hn : ¬ k < m + 1 := by omega
        rw [if_neg hlt, if_neg hn]

/-- After the stop of the server, the consumers of the first `m` streams have each
run one more iteration and returned on a transport error, with what they had
received. -/
theorem Sharding.run_lastRecvs {σ : Type} (S : ChatStream σ) (slot : Nat → Nat) (F : FanOut σ)
    (hfat : F.fatal = none) (m : Nat) (hm : m ≤ 32) :
    Sharding.runFrom S slot
        { fan := F, handlerDone := fun _ => false, allDone := true, stopped := true,
          consumers := fun k =>
            if k < 32 then
              { stream := { cs := Sharding.quota k, lock := false }, done := false,
                err := none }
            else Consumer.start } ((List.range m).map TopoEvent.recv) =
      { fan := F, handlerDone := fun _ => false, allDone := true, stopped := true,
        consumers := fun k =>
          if k < m then
            { stream := { cs := Sharding.quota k, lock := false }, done := true,
              err := some ⟨"transport is closing"⟩ }
          else if k < 32 then
            { stream := { cs := Sharding.quota k, lock := false }, done := false, err := none }
          else Consumer.start } := by
  induction m with
  | zero =>
    have : (fun k : Nat => if k < 0 then
        ({ stream := { cs := Sharding.quota k, lock := false }, done := true,
           err := some ⟨"transport is closing"⟩ } : Consumer)
        else if k < 32 then
          { stream := { cs := Sharding.quota k, lock := false }, done := false, err := none }
        else Consumer.start) =
        fun k => if k < 32 then
          { stream := { cs := Sharding.quota k, lock := false }, done := false, err := none }
        else Consumer.start := by
      funext k
      rw [if_neg (Nat.not_lt_zero k)]
    rw [this]
    rfl
  | succ m ih =>
    have hm32 : m < 32 := by omega
    have hst := chaincodeStep_stopped (FanOut.sendsOn slot F.j m) false
      { stream := { cs := Sharding.quota m, lock := false }, done := false, err := none }
      rfl rfl
    have hstep : ∀ st : TopoRun σ, st.fan.fatal = none →
        Sharding.step S slot st (TopoEvent.recv m) =
        { st with
          consumers := Function.update st.consumers m
            (chaincodeStep (FanOut.sendsOn slot st.fan.j m) (st.handlerDone m)
              st.stopped (st.consumers m)) } := by
      intro st hf
      simp [Sharding.step, hf]
    rw [List.range_succ, List.map_append, Sharding.shardRun_append, ih (by omega),
      List.map_cons, List.map_nil, Sharding.shardRun_cons, hstep _ hfat]
    simp only [if_neg (Nat.lt_irrefl m), if_pos hm32, hst]
    show _ = _
    simp only [Sharding.runFrom, List.foldl_nil]
    congr 1
    funext k
    by_cases hk : k = m
    · rw [hk, Function.update_same, if_pos (Nat.lt_succ_self m)]
    · rw [Function.update_noteq hk]
      by_cases hlt : k < m
      · rw [if_pos hlt, if_pos (Nat.lt_succ_of_lt hlt)]
      · have hn : ¬ k < m + 1 := by omega
        rw [if_neg hlt, if_neg hn]

/-- The rest of the schedule `Sharding.lossySchedule` once `cfg.wg.Wait()` can return
in `peer`: the state it ends in. -/
theorem Sharding.lossy_rest {σ : Type} (S : ChatStream σ) (slot : Nat → Nat) (F : FanOut σ)
    (hfat : F.fatal = none) (hw : F.waitReturns = true)
    (hsent : ∀ k, k < 32 → FanOut.sendsOn slot F.j k = 40000) :
    Sharding.runFrom S slot
        { fan := F, handlerDone := fun _ => false, allDone := false, stopped := false,
          consumers := fun _ => Consumer.start }
        (Sharding.recvs 32 ++
          (TopoEvent.closeAllDone :: TopoEvent.stop :: (List.range 32).map TopoEvent.recv)) =
      { fan := F, handlerDone := fun _ => false, allDone := true, stopped := true,
        consumers := fun k =>
          if k < 32 then
            { stream := { cs := Sharding.quota k, lock := false }, done := true,
              err := some ⟨"transport is closing"⟩ }
          else if k < 32 then
            { stream := { cs := Sharding.quota k, lock := false }, done := false, err := none }
          else Consumer.start } := by
  have h1 : ∀ c : Nat → Consumer, Sharding.step S slot
      { fan := F, handlerDone := fun _ => false, allDone := false, stopped := false,
        consumers := c } TopoEvent.closeAllDone =
      { fan := F, handlerDone := fun _ => false, allDone := true, stopped := false,
        consumers := c } := by
    intro c
    simp [Sharding.step, hfat, hw]
  have h2 : ∀ c : Nat → Consumer, Sharding.step S slot
      { fan := F, handlerDone := fun _ => false, allDone := true, stopped := false,
        consumers := c } TopoEvent.stop =
      { fan := F, handlerDone := fun _ => false, allDone := true, stopped := true,
        consumers := c } := by
    intro c
    simp [Sharding.step, hfat]
  rw [Sharding.shardRun_append, Sharding.run_recvs S slot F hfat hsent 32 (le_refl _),
    Sharding.shardRun_cons, h1, Sharding.shardRun_cons, h2,
    Sharding.run_lastRecvs S slot F hfat 32 (le_refl _)]

/-- What holds at the end of the schedule `Sharding.lossySchedule`, for a state `R`
reached by the rest of that schedule from a fan-out `F` in which `cfg.wg.Wait()` can
return. -/
theorem Sharding.lossy_facts {σ : Type} (S : ChatStream σ) (slot : Nat → Nat) (L : Nat)
    (F : FanOut σ) (R : TopoRun σ) (hinv : FanOut.Inv slot L F) (hL : L = 32)
    (hslot : ∀ i, slot i = i % 32) (hw : F.waitReturns = true)
    (hR : R = Sharding.runFrom S slot
        { fan := F, handlerDone := fun _ => false, allDone := false, stopped := false,
          consumers := fun _ => Consumer.start }
        (Sharding.recvs 32 ++
          (TopoEvent.closeAllDone :: TopoEvent.stop :: (List.range 32).map TopoEvent.recv))) :
    R.fan.waitReturns = true ∧ R.fan.fatal = none ∧ R.allDone = true ∧ R.stopped = true ∧
      (∀ k, k < 32 → ∃ w, R.fan.pool[k]? = some w ∧
        w.cs.2 = List.replicate 40000 (Call.send ⟨"Hello!"⟩)) ∧
      (∀ k, k < 32 → (R.consumers k).done = true ∧
        (R.consumers k).err = some ⟨"transport is closing"⟩) ∧
      (∀ k, k < 31 → (R.consumers k).stream.cs = 40000) ∧
      (R.consumers 31).stream.cs = 39999 ∧
      ((List.range 32).map (fun k => (R.consumers k).stream.cs)).sum = 1279999 := by
  subst hL
  have hslot2 : slot = fun i => i % 32 := funext hslot
  obtain ⟨_, _, _, _, hfat⟩ := FanOut.of_waitReturns slot 32 F hinv hw
  have hsent : ∀ k, k < 32 → FanOut.sendsOn slot F.j k = 40000 := by
    intro k hk
    rw [FanOut.sendsOn_of_waitReturns slot 32 F hinv hw k, hslot2, FanOut.workersOf_mod32 k hk]
  rw [Sharding.lossy_rest S slot F hfat hw hsent] at hR
  subst hR
  refine ⟨hw, hfat, rfl, rfl, ?_, ?_, ?_, ?_, ?_⟩
  · intro k hk
    have hlt : k < F.pool.length := by rw [hinv.len]; exact hk
    refine ⟨F.pool[k], List.getElem?_eq_getElem hlt, ?_⟩
    have hlog := FanOut.log_of_waitReturns slot 32 F hinv hw k _ (List.getElem?_eq_getElem hlt)
    rw [hslot2, FanOut.workersOf_mod32 k hk] at hlog
    exact hlog
  · intro k hk
    simp only [if_pos hk]
    exact ⟨trivial, trivial⟩
  · intro k hk
    have hk32 : k < 32 := by omega
    have hne : k ≠ 31 := by omega
    simp only [if_pos hk32, Sharding.quota, if_neg hne]
  · simp [Sharding.quota]
  · have hq : ∀ k ∈ List.range 32,
        ((fun k => if k < 32 then
            ({ stream := { cs := Sharding.quota k, lock := false }, done := true,
               err := some ⟨"transport is closing"⟩ } : Consumer)
          else if k < 32 then
            { stream := { cs := Sharding.quota k, lock := false }, done := false, err := none }
          else Consumer.start) k).stream.cs = Sharding.quota k := by
      intro k hk
      have hk32 : k < 32 := List.mem_range.mp hk
      simp only [if_pos hk32]
    show ((List.range 32).map _).sum = 1279999
    rw [List.map_congr_left hq]
    decide

/-! ## The steps of the runs are the loop bodies of peerTask and chaincodeTask -/

theorem FanOut.run_cons {σ : Type} (S : ChatStream σ) (slot : Nat → Nat) (ev : FanEvent)
    (l : List FanEvent) (st : FanOut σ) :
    FanOut.run S slot (ev :: l) st = FanOut.run S slot l (FanOut.step S slot st ev) := by
  simp only [FanOut.run, List.foldl_cons]

/-- A goroutine that holds the error of a failed `Send` makes no further call on its
stream, however often it is scheduled. -/
theorem FanOut.run_after_failure {σ : Type} (S : ChatStream σ) (slot : Nat → Nat)
    (i : Nat) (e : GoError) (n : Nat) :
    ∀ st : FanOut σ, st.pc i = Pc.sendFailed e →
      (FanOut.run S slot (List.replicate n (FanEvent.run i)) st).pool = st.pool ∧
        (FanOut.run S slot (List.replicate n (FanEvent.run i)) st).pc i = Pc.sendFailed e := by
  induction n with
  | zero => intro st h; exact ⟨rfl, h⟩
  | succ n ih =>
    intro st h
    rw [List.replicate_succ, FanOut.run_cons]
    have hstep : (FanOut.step S slot st (FanEvent.run i)).pool = st.pool ∧
        (FanOut.step S slot st (FanEvent.run i)).pc i = Pc.sendFailed e := by
      cases hf : st.fatal with
      | some err => rw [FanOut.step_fatal S slot st _ err hf]; exact ⟨rfl, h⟩
      | none =>
        have heq : FanOut.step S slot st (FanEvent.run i) = { st with fatal := some e } := by
          simp [FanOut.step, hf, h]
        rw [heq]
        exact ⟨rfl, h⟩
    obtain ⟨r1, r2⟩ := ih _ hstep.2
    exact ⟨r1.trans hstep.1, r2⟩

/-- A goroutine scheduled alone for `n` iterations on one wrapper leaves the wrapped
stream and the record of its calls as the loop of `peerTask` with `n` iterations does:
the step of the fan-out is the body of that loop. -/
theorem FanOut.lone_goroutine {σ : Type} (S : ChatStream σ) (n : Nat) :
    ∀ (st : FanOut σ) (s : σ) (log : List Call),
      st.pool = [{ cs := (s, log), lock := false }] → st.fatal = none →
      st.pc 0 = Pc.inLoop → st.j 0 + n ≤ 10000 →
      (FanOut.run S (fun _ => 0) (List.replicate n (FanEvent.run 0)) st).pool =
        [{ cs := (peerTaskLoop (traced S) n (s, log)).2, lock := false }] := by
  induction n with
  | zero => intro st s log hp _ _ _; exact hp
  | succ n ih =>
    intro st s log hp hf hpc hj
    have hj1 : st.j 0 < 10000 := by omega
    have hw : st.pool[(fun _ : Nat => 0) 0]? =
        some ({ cs := (s, log), lock := false } : serialStream (σ × List Call)) := by
      rw [hp]; rfl
    rw [List.replicate_succ, FanOut.run_cons]
    cases herr : (S.Send s helloMsg).2 with
    | some e =>
      have heq : FanOut.step S (fun _ => 0) st (FanEvent.run 0) =
          { st with
            pool := st.pool.set 0
              { cs := ((S.Send s helloMsg).1, log ++ [Call.send helloMsg]), lock := false },
            pc := Function.update st.pc 0 (Pc.sendFailed e) } := by
        simp [FanOut.step, hf, hpc, hj1, hp, serialStream.Send, traced, herr]
      have hafter := FanOut.run_after_failure S (fun _ => 0) 0 e n
        (FanOut.step S (fun _ => 0) st (FanEvent.run 0))
        (by rw [heq]; simp only [Function.update_same])
      rw [hafter.1, heq]
      simp only [peerTaskLoop, traced, herr, hp, List.set_cons_zero]
    | none =>
      have heq : FanOut.step S (fun _ => 0) st (FanEvent.run 0) =
          { st with
            pool := st.pool.set 0
              { cs := ((S.Send s helloMsg).1, log ++ [Call.send helloMsg]), lock := false },
            j := Function.update st.j 0 (st.j 0 + 1) } := by
        simp [FanOut.step, hf, hpc, hj1, hp, serialStream.Send, traced, herr]
      have hrec := ih (FanOut.step S (fun _ => 0) st (FanEvent.run 0))
        (S.Send s helloMsg).1 (log ++ [Call.send helloMsg])
        (by rw [heq]; simp only [hp, List.set_cons_zero])
        (by rw [heq]; exact hf) (by rw [heq]; exact hpc)
        (by rw [heq]; simp only [Function.update_same]; omega)
      rw [hrec]
      simp only [peerTaskLoop, traced, herr]

theorem chaincodeStep_returned (sent : Nat) (ended stopped : Bool) (m : Nat) :
    ∀ c : Consumer, c.done = true → (chaincodeStep sent ended stopped)^[m] c = c := by
  induction m with
  | zero => intro c _; rfl
  | succ m ihm =>
    intro c hc
    have h1 : chaincodeStep sent ended stopped c = c := by simp [chaincodeStep, hc]
    rw [Function.iterate_succ_apply, h1, ihm c hc]

/-- A consumer scheduled for `n` iterations on a stream whose handler has returned is
`chaincodeTask` with `n` iterations of fuel on the client end: it has returned exactly
when `chaincodeTask` returns, and has received what `chaincodeTask` has. -/
theorem chaincodeStep_iterate_eq_chaincodeTask (sent : Nat) (stopped : Bool) (n : Nat) :
    ∀ c : Consumer, c.done = false → c.stream.lock = false →
      ((chaincodeStep sent true stopped)^[n] c).done =
          (chaincodeTask (clientEnd sent stopped) n c.stream.cs).isSome ∧
        ((chaincodeStep sent true stopped)^[n] c).stream.cs =
          (match chaincodeTask (clientEnd sent stopped) n c.stream.cs with
            | some r => r.2
            | none => afterRecvs (clientEnd sent stopped) n c.stream.cs) := by
  induction n with
  | zero => intro c hd _; exact ⟨hd, rfl⟩
  | succ n ih =>
    intro c hd hl
    rw [Function.iterate_succ_apply]
    cases stopped with
    | true =>
      rw [chaincodeStep_stopped sent true c hd hl, chaincodeStep_returned sent true true n _ rfl]
      simp [chaincodeTask, clientEnd]
    | false =>
      by_cases hlt : c.stream.cs < sent
      · rw [chaincodeStep_recv sent true c hd hl hlt]
        have h2 := ih { c with stream := { cs := c.stream.cs + 1, lock := false } } hd rfl
        simp only [chaincodeTask, afterRecvs, clientEnd, Bool.false_eq_true, if_false, hlt,
          if_true]
        exact h2
      · rw [chaincodeStep_eof sent c hd hl hlt, chaincodeStep_returned sent true false n _ rfl]
        simp [chaincodeTask, clientEnd, hlt]
/-! ## Registration in the pool -/

theorem Sharding.foldl_handler {σ : Type} (streams : List σ) :
    ∀ st : PoolState σ,
      (streams.foldl Sharding.handler st).pool =
          st.pool ++ streams.map (fun s => { cs := s, lock := false }) ∧
        (streams.foldl Sharding.handler st).poolWG = st.poolWG - streams.length := by
  induction streams with
  | nil => intro st; simp
  | cons s streams ih =>
    intro st
    obtain ⟨h1, h2⟩ := ih (Sharding.handler st s)
    rw [List.foldl_cons, h1, h2]
    constructor
    · simp [Sharding.handler]
    · simp only [Sharding.handler, List.length_cons]
      push_cast
      omega

theorem Sharding.registered_pool {σ : Type} (cfg : Sharding) (streams : List σ) :
    (Sharding.registered cfg streams).pool =
        streams.map (fun s => { cs := s, lock := false }) ∧
      (Sharding.registered cfg streams).poolWG = 32 - streams.length := by
  obtain ⟨h1, h2⟩ := Sharding.foldl_handler streams (Sharding.peerStart cfg σ)
  exact ⟨by simpa [Sharding.registered, Sharding.peerStart] using h1,
    by simpa [Sharding.registered, Sharding.peerStart] using h2⟩

theorem Sharding.wait_iff {σ : Type} (cfg : Sharding) (streams : List σ) :
    (Sharding.registered cfg streams).waitReturns = true ↔ streams.length = 32 := by
  have h := (Sharding.registered_pool cfg streams).2
  simp only [PoolState.waitReturns, decide_eq_true_eq, h]
  omega

theorem Sharding.registered_free {σ : Type} (cfg : Sharding) (streams : List σ) :
    ∀ w ∈ (Sharding.registered cfg streams).pool, w.lock = false := by
  intro w hw
  rw [(Sharding.registered_pool cfg streams).1] at hw
  obtain ⟨s, _, hs⟩ := List.mem_map.mp hw
  rw [← hs]


theorem sum_map_const_of_forall {α : Type} (f : α → Nat) (c : Nat) (l : List α)
    (h : ∀ w ∈ l, f w = c) : (l.map f).sum = l.length * c := by
  induction l with
  | nil => simp
  | cons a l ih =>
    have ha := h a (List.mem_cons_self a l)
    have hl := ih (fun w hw => h w (List.mem_cons_of_mem a hw))
    simp only [List.map_cons, List.sum_cons, List.length_cons, ha, hl]
    rw [Nat.succ_mul, Nat.add_comm]

theorem sentMessages_replicate (n : Nat) (m : ChatMessage) :
    sentMessages (List.replicate n (Call.send m)) = List.replicate n m := by
  induction n with
  | zero => rfl
  | succ n ih =>
    rw [List.replicate_succ, List.replicate_succ, ← ih]
    rfl

/-! ## The serving side of Sharding -/

/-- The serving side of Sharding, under every schedule: once `poolWG.Wait()` has
returned the pool holds exactly 32 entries; producer `i`, for every `i < 128`, is given
`pool[i % 32]`, a valid index; each of the 32 slots is used by exactly 4 producers; and
when `cfg.wg.Wait()` returns, exactly 40000 `Send`s of the hello message have been
made on each pooled stream and 1280000 on the 32 streams together. -/
theorem Sharding.serving_side {σ : Type} (cfg : Sharding) (S : ChatStream σ)
    (streams : List σ) (sched : List TopoEvent)
    (hreg : (Sharding.registered cfg streams).waitReturns = true)
    (hwait : (Sharding.run S (Sharding.registered cfg streams).pool sched).fan.waitReturns =
      true) :
    (Sharding.registered cfg streams).pool.length = 32 ∧
      (∀ i, i < 128 →
        Sharding.slot (Sharding.registered cfg streams).pool i = i % 32 ∧
        i % 32 < (Sharding.registered cfg streams).pool.length ∧
        Sharding.pick (Sharding.registered cfg streams).pool i =
          (Sharding.registered cfg streams).pool[i % 32]? ∧
        (Sharding.pick (Sharding.registered cfg streams).pool i).isSome = true) ∧
      (∀ k, k < 32 →
        (FanOut.workersOf (Sharding.slot (Sharding.registered cfg streams).pool) k).card = 4) ∧
      (∀ k, k < 32 → ∃ w,
        (Sharding.run S (Sharding.registered cfg streams).pool sched).fan.pool[k]? = some w ∧
        w.cs.2 = List.replicate 40000 (Call.send ⟨"Hello!"⟩)) ∧
      ((Sharding.run S (Sharding.registered cfg streams).pool sched).fan.pool.map
        (fun w => (sentMessages w.cs.2).length)).sum = 1280000 := by
  have hlen : (Sharding.registered cfg streams).pool.length = 32 := by
    rw [(Sharding.registered_pool cfg streams).1, List.length_map]
    exact (Sharding.wait_iff cfg streams).mp hreg
  have hslot : Sharding.slot (Sharding.registered cfg streams).pool = fun i => i % 32 := by
    funext i; rw [Sharding.slot, hlen]
  have hinv := Sharding.run_fanInv S (Sharding.registered cfg streams).pool
    (Sharding.registered_free cfg streams) sched
  have hlen2 : (Sharding.run S (Sharding.registered cfg streams).pool sched).fan.pool.length
      = 32 := by rw [hinv.len, hlen]
  have hlogs : ∀ (k : Nat) (w : serialStream (σ × List Call)),
      (Sharding.run S (Sharding.registered cfg streams).pool sched).fan.pool[k]? = some w →
      w.cs.2 = List.replicate 40000 (Call.send helloMsg) := by
    intro k w hw
    have hk : k < 32 := by
      by_contra hge
      rw [List.getElem?_eq_none (by rw [hlen2]; omega)] at hw
      cases hw
    have hlog := FanOut.log_of_waitReturns _ _ _ hinv hwait k w hw
    rw [hslot, FanOut.workersOf_mod32 k hk] at hlog
    exact hlog
  refine ⟨hlen, ?_, ?_, ?_, ?_⟩
  · intro i _
    have hlt : i % 32 < (Sharding.registered cfg streams).pool.length := by
      rw [hlen]; exact Nat.mod_lt i (by decide)
    refine ⟨by rw [hslot], hlt, ?_, ?_⟩
    · simp [Sharding.pick, hlen]
    · simp only [Sharding.pick, hlen]
      rw [if_neg (by decide), List.getElem?_eq_getElem (by rw [hlen]; exact Nat.mod_lt i (by decide))]
      rfl
  · intro k hk
    rw [hslot]
    exact FanOut.workersOf_mod32 k hk
  · intro k hk
    have hlt : k <
        (Sharding.run S (Sharding.registered cfg streams).pool sched).fan.pool.length := by
      rw [hlen2]; exact hk
    exact ⟨_, List.getElem?_eq_getElem hlt, hlogs k _ (List.getElem?_eq_getElem hlt)⟩
  · rw [sum_map_const_of_forall _ 40000 _ ?_, hlen2]
    intro w hw
    obtain ⟨k, hk⟩ := List.getElem?_of_mem hw
    rw [hlogs k w hk, sentMessages_replicate, List.length_replicate]

/-! ## Claims on the Sharding and Normal topologies -/

/-- C8, evaluated on a run of Sharding with 32 registered streams on which no `Send`
fails. The serving side does what the claim says: `poolWG.Wait()` returns, and when
`cfg.wg.Wait()` returns exactly 40000 `Send`s of the hello message have been made on
each of the 32 pooled streams. But `peer` then closes `cfg.allDone` and returns, and
its deferred `grpcServer.Stop()` runs without waiting for the consumers: in this run
the last message of stream 31 is still on its way, the consumer of that stream returns
on a transport error with 39999 messages received, and the 32 consumers together have
received 1279999 messages, not 1280000. -/
theorem sharding_stop_cuts_streams :
    (Sharding.registered ⟨8888, 32⟩ (List.replicate 32 (0 : Nat))).waitReturns = true ∧
      (Sharding.run okStream (Sharding.registered ⟨8888, 32⟩ (List.replicate 32 0)).pool
        Sharding.lossySchedule).fan.waitReturns = true ∧
      (Sharding.run okStream (Sharding.registered ⟨8888, 32⟩ (List.replicate 32 0)).pool
        Sharding.lossySchedule).fan.fatal = none ∧
      (Sharding.run okStream (Sharding.registered ⟨8888, 32⟩ (List.replicate 32 0)).pool
        Sharding.lossySchedule).allDone = true ∧
      (Sharding.run okStream (Sharding.registered ⟨8888, 32⟩ (List.replicate 32 0)).pool
        Sharding.lossySchedule).stopped = true ∧
      (∀ k, k < 32 → ∃ w,
        (Sharding.run okStream (Sharding.registered ⟨8888, 32⟩ (List.replicate 32 0)).pool
          Sharding.lossySchedule).fan.pool[k]? = some w ∧
        w.cs.2 = List.replicate 40000 (Call.send ⟨"Hello!"⟩)) ∧
      (∀ k, k < 32 →
        ((Sharding.run okStream (Sharding.registered ⟨8888, 32⟩ (List.replicate 32 0)).pool
          Sharding.lossySchedule).consumers k).done = true ∧
        ((Sharding.run okStream (Sharding.registered ⟨8888, 32⟩ (List.replicate 32 0)).pool
          Sharding.lossySchedule).consumers k).err = some ⟨"transport is closing"⟩) ∧
      (∀ k, k < 31 →
        ((Sharding.run okStream (Sharding.registered ⟨8888, 32⟩ (List.replicate 32 0)).pool
          Sharding.lossySchedule).consumers k).stream.cs = 40000) ∧
      ((Sharding.run okStream (Sharding.registered ⟨8888, 32⟩ (List.replicate 32 0)).pool
        Sharding.lossySchedule).consumers 31).stream.cs = 39999 ∧
      ((List.range 32).map (fun k =>
        ((Sharding.run okStream (Sharding.registered ⟨8888, 32⟩ (List.replicate 32 0)).pool
          Sharding.lossySchedule).consumers k).stream.cs)).sum = 1279999 := by
  have hL : (Sharding.registered ⟨8888, 32⟩ (List.replicate 32 (0 : Nat))).pool.length = 32 := by
    decide
  have hfree := Sharding.registered_free ⟨8888, 32⟩ (List.replicate 32 (0 : Nat))
  have hslot : ∀ i,
      Sharding.slot (Sharding.registered ⟨8888, 32⟩ (List.replicate 32 (0 : Nat))).pool i =
        i % 32 := fun i => by rw [Sharding.slot, hL]
  have hinv := FanOut.fanInv_run okStream
    (Sharding.slot (Sharding.registered ⟨8888, 32⟩ (List.replicate 32 (0 : Nat))).pool)
    _ FanOut.fullSchedule _ (FanOut.fanInv_start _ _ hfree)
  have hw := FanOut.fullSchedule_waitReturns okStream
    (Sharding.slot (Sharding.registered ⟨8888, 32⟩ (List.replicate 32 (0 : Nat))).pool)
    _ (fun _ _ => rfl) hfree (fun i _ => by rw [hslot, hL]; exact Nat.mod_lt i (by decide))
  refine ⟨by decide, ?_⟩
  exact Sharding.lossy_facts okStream _ _ _ _ hinv hL hslot hw
    (by rw [Sharding.run, Sharding.lossySchedule, Sharding.shardRun_append,
      Sharding.shardRun_start_fan])

/-- C9, as the code has it. On a stream on which no `Send` fails, the run of the Normal
topology under the schedule `Normal.fullSchedule` completes: the consumer task returns.
And in every run of the Normal topology, on any stream and under any schedule, in
which the consumer task has returned: no `Send` has failed, the handler had returned
after its 128 producers, the single accepted stream carries exactly 1280000 `Send`s
of the hello message (128 producers with 10000 each, not 10000 in all), and the
consumer received exactly 1280000 messages and then observed the end of the stream. -/
theorem normal_stream_carries_all_producers {σ : Type} (S : ChatStream σ) (stream : σ) :
    ((∀ s m, (S.Send s m).2 = none) →
        ((Normal.run S stream Normal.fullSchedule).consumers 0).done = true) ∧
      ∀ sched : List TopoEvent, ((Normal.run S stream sched).consumers 0).done = true →
        (Normal.run S stream sched).fan.fatal = none ∧
          (Normal.run S stream sched).handlerDone 0 = true ∧
          (Normal.run S stream sched).fan.waitReturns = true ∧
          (∃ w, (Normal.run S stream sched).fan.pool = [w] ∧
            w.cs.2 = List.replicate 1280000 (Call.send ⟨"Hello!"⟩)) ∧
          FanOut.sendsOn (fun _ => 0) (Normal.run S stream sched).fan.j 0 = 1280000 ∧
          ((Normal.run S stream sched).consumers 0).stream.cs = 1280000 ∧
          ((Normal.run S stream sched).consumers 0).err = some ⟨"EOF"⟩ :=
  ⟨fun hok => Normal.fullSchedule_done S stream hok,
    fun sched hdone => Normal.of_consumerDone S stream sched hdone⟩

theorem normal_stream_carries_all_producers_witness :
    ((Normal.run okStream 0 Normal.fullSchedule).consumers 0).done = true ∧
      FanOut.sendsOn (fun _ => 0) (Normal.run okStream 0 Normal.fullSchedule).fan.j 0 =
        1280000 ∧
      ((Normal.run okStream 0 Normal.fullSchedule).consumers 0).stream.cs = 1280000 ∧
      ((Normal.run okStream 0 Normal.fullSchedule).consumers 0).err = some ⟨"EOF"⟩ :=
  ⟨(normal_stream_carries_all_producers okStream 0).1 (fun _ _ => rfl),
    ((normal_stream_carries_all_producers okStream 0).2 Normal.fullSchedule
      ((normal_stream_carries_all_producers okStream 0).1 (fun _ _ => rfl))).2.2.2.2⟩

/-- C9 as stated fails: on the stream that never fails, under the schedule
`Normal.fullSchedule`, the run completes without a failed `Send`, and the number of
messages sent on the single accepted stream and the number the consumer received
before the end of the stream are both 1280000, not 10000. -/
theorem normal_stream_not_10000_messages :
    ((Normal.run okStream 0 Normal.fullSchedule).consumers 0).done = true ∧
      (Normal.run okStream 0 Normal.fullSchedule).fan.fatal = none ∧
      FanOut.sendsOn (fun _ => 0) (Normal.run okStream 0 Normal.fullSchedule).fan.j 0 =
        1280000 ∧
      ((Normal.run okStream 0 Normal.fullSchedule).consumers 0).stream.cs = 1280000 ∧
      FanOut.sendsOn (fun _ => 0) (Normal.run okStream 0 Normal.fullSchedule).fan.j 0 ≠
        10000 ∧
      ((Normal.run okStream 0 Normal.fullSchedule).consumers 0).stream.cs ≠ 10000 := by
  have hdone := Normal.fullSchedule_done okStream 0 (fun _ _ => rfl)
  obtain ⟨hfat, _, _, _, hsent, hcs, _⟩ :=
    Normal.of_consumerDone okStream 0 Normal.fullSchedule hdone
  refine ⟨hdone, hfat, hsent, hcs, ?_, ?_⟩
  · rw [hsent]; decide
  · rw [hcs]; decide

/-- C10, evaluated on a `Sharding` configured with `poolSize = 16`: the serving side
still waits for exactly 32 registrations (`poolWG.Wait()` returns exactly when 32
handlers have registered, not 16), and the calling side still opens 32 streams; the
field `poolSize` is not read. -/
theorem sharding_poolSize_16_waits_for_32 :
    (Sharding.peerStart ⟨8888, 16⟩ Nat).poolWG = 32 ∧
      (Sharding.registered ⟨8888, 16⟩ (List.replicate 16 0)).waitReturns = false ∧
      (Sharding.registered ⟨8888, 16⟩ (List.replicate 32 0)).waitReturns = true ∧
      (Sharding.chaincodeStreams ⟨8888, 16⟩).length = 32 ∧
      (∀ i, i < 128 →
        Sharding.slot (Sharding.registered ⟨8888, 16⟩ (List.replicate 32 0)).pool i =
          i % 32) := by
  refine ⟨rfl, by decide, by decide, by decide, ?_⟩
  intro i _
  rfl


end GrpcTest
